import Mathlib

/-!
Verification development for the `battler-ai-gemini-py` program (`main.py`).

The Python source is shallowly embedded: pure helpers become Lean functions,
the remote Gemini client becomes explicit state passing plus a call trace, and
Python exceptions become an explicit error type.  Character-class predicates
from Python regular expressions (`\w`, `\s`) are modelled on the ASCII range;
Python additionally treats some non-ASCII characters as word characters, which
is noted where it matters.
-/

namespace Battler

/-- Model of the Python exceptions raised by `main.py`.  `unboundLocalError`
models the `UnboundLocalError` raised when a local variable is referenced
before assignment (as happens at `raise ValueError(...) from e` on line 58,
where `e` is only bound inside the preceding `except` block). -/
inductive PyExc where
  | nameError (msg : String)
  | valueError (msg : String)
  | unboundLocalError (varName : String)
  | remoteError (msg : String)
deriving DecidableEq, Repr

/-- The error kinds named by the specification (§7). -/
inductive ErrKind where
  | MissingField
  | InvalidFormat
  | IncompleteInput
  | NotFound
  | NotADirectory
  | InvalidConfiguration
  | GenerationFailed
  | Other
deriving DecidableEq, Repr

/-- Modelled from the spec: the spec's §7 error kinds are not reified in the
Python code, which raises plain `NameError`/`ValueError` with fixed messages.
This maps each exception the embedded code can produce to the spec's kind:
`NameError` for an unset value is `MissingField`; the `ValueError`s are
classified by their message.  An `UnboundLocalError` corresponds to no spec
kind at all. -/
def errKind : PyExc → ErrKind
  | .nameError _ => .MissingField
  | .unboundLocalError _ => .Other
  | .remoteError _ => .GenerationFailed
  | .valueError m =>
    if m = "Player is not an alphanumeric ID" then .InvalidFormat
    else if m = "Battle input is not valid JSON" then .InvalidFormat
    else if m = "Invalid battle input JSON" then .InvalidFormat
    else if m = "Battle input is missing player data" then .IncompleteInput
    else if m = "Battle input is missing battle state" then .IncompleteInput
    else if m = "Battle input is missing request data" then .IncompleteInput
    else if m = "Battle input is missing failed actions" then .IncompleteInput
    else if m = "Data directory does not exist" then .NotFound
    else if m = "Data directory is not a directory" then .NotADirectory
    else if m = "Caching must be enabled if using data files" then .InvalidConfiguration
    else if m = "Data directory must be defined if using data files" then .InvalidConfiguration
    else .Other

instance instDecEqExcept {ε α : Type} [DecidableEq ε] [DecidableEq α] :
    DecidableEq (Except ε α) := fun a b =>
  match a, b with
  | .ok x, .ok y =>
    if h : x = y then .isTrue (by rw [h]) else .isFalse (by intro hc; cases hc; exact h rfl)
  | .ok _, .error _ => .isFalse (by intro hc; cases hc)
  | .error _, .ok _ => .isFalse (by intro hc; cases hc)
  | .error x, .error y =>
    if h : x = y then .isTrue (by rw [h]) else .isFalse (by intro hc; cases hc; exact h rfl)

/-! ## `validate_player` (main.py lines 41-46)

The check is `re.findall(r"^[\w-]+$", player)`.  With no `re.MULTILINE`,
`^` anchors at position 0 and `$` matches at the end of the string *or just
before a newline at the end of the string*, so the call succeeds exactly when
the string consists of one or more word-or-hyphen characters optionally
followed by a single trailing `'\n'`. -/

/-- Python's `\w` restricted to the ASCII range: `[A-Za-z0-9_]`.  (Python's
`\w` on `str` also accepts non-ASCII word characters; theorems touching this
predicate therefore restrict attention to ASCII strings.) -/
def isAsciiWordChar (c : Char) : Bool := c.isAlphanum || c = '_'

/-- The character class `[\w-]` of the player regex, on the ASCII range. -/
def isPlayerChar (c : Char) : Bool := isAsciiWordChar c || c = '-'

/-- Continuation of the `^[\w-]+$` match after at least one `[\w-]` character
has been consumed: the rest must be more `[\w-]` characters, optionally ending
with a single trailing newline (matched by `$` before a final `'\n'`). -/
def playerTail : List Char → Bool
  | [] => true
  | [c] => isPlayerChar c || c = '\n'
  | c :: c2 :: cs => isPlayerChar c && playerTail (c2 :: cs)

/-- Whether `re.findall(r"^[\w-]+$", s)` is non-empty (ASCII model). -/
def playerAccepts : List Char → Bool
  | [] => false
  | c :: cs => isPlayerChar c && playerTail cs

/-- Embedding of `validate_player` (main.py lines 41-46). -/
def validate_player (player : String) : Except PyExc String :=
  if player = "" then .error (.nameError "Player ID is not defined")
  else if playerAccepts player.data then .ok player
  else .error (.valueError "Player is not an alphanumeric ID")

/-! ## `prompt_input` (main.py lines 83-85)

`prompt_input` escapes the key with `re.escape` and substitutes every
occurrence of the pattern `\$\{\{\s+KEY\s+\}\}` with the value, using a
replacement *function*, so the value is inserted verbatim.  Because the key is
escaped, it is matched literally; the pattern is embedded directly as a
backtracking matcher over character lists.  `\s+` requires at least one
whitespace character on each side of the key. -/

/-- Python's `\s` on the ASCII range: `[ \t\n\r\v\f]`. -/
def isPySpace (c : Char) : Bool :=
  c = ' ' || c = '\t' || c = '\n' || c = '\r' || c = '\x0b' || c = '\x0c'

/-- Match a literal character sequence (the `re.escape`d key) and return the
remaining input. -/
def dropLit : List Char → List Char → Option (List Char)
  | [], cs => some cs
  | _ :: _, [] => none
  | k :: ks, c :: cs => if c = k then dropLit ks cs else none

/-- Match `\s*\}\}` continuing a `\s+` run greedily (the first whitespace
character has already been consumed by the caller): prefer consuming another
whitespace character; on failure of that alternative, match the literal
`}}` here. -/
def matchCloseTail : List Char → Option (List Char)
  | [] => none
  | c :: cs =>
    if c = '\x7d' then
      match cs with
      | [] => none
      | c2 :: rest => if c2 = '\x7d' then some rest else none
    else if isPySpace c then matchCloseTail cs
    else none

/-- Match `\s+\}\}` (greedy, with backtracking): at least one whitespace
character, then `}}`. -/
def matchClose : List Char → Option (List Char)
  | [] => none
  | c :: cs => if isPySpace c then matchCloseTail cs else none

/-- Match the literal key followed by `\s+\}\}`. -/
def matchKeyClose (key : List Char) (cs : List Char) : Option (List Char) :=
  match dropLit key cs with
  | none => none
  | some cs2 => matchClose cs2

/-- Match `\s*KEY\s+\}\}` continuing a greedy `\s+` run (one whitespace
character already consumed): prefer extending the whitespace run; on failure,
match the key here. -/
def matchWs1Tail (key : List Char) : List Char → Option (List Char)
  | [] => matchKeyClose key []
  | c :: cs =>
    if isPySpace c then (matchWs1Tail key cs) <|> matchKeyClose key (c :: cs)
    else matchKeyClose key (c :: cs)

/-- Match `\s+KEY\s+\}\}` at the given position (the part of the placeholder
pattern after the literal `${{`). -/
def matchWs1 (key : List Char) : List Char → Option (List Char)
  | [] => none
  | c :: cs => if isPySpace c then matchWs1Tail key cs else none

/-- Match the part of the placeholder after a `$`: the literal `{{` followed
by `\s+KEY\s+\}\}`. -/
def placeholderAt (key : List Char) : List Char → Option (List Char)
  | c1 :: c2 :: cs2 => if c1 = '\x7b' ∧ c2 = '\x7b' then matchWs1 key cs2 else none
  | _ => none

/-- One `re.sub` scan with explicit fuel (the fuel is only a termination
device; `prompt_input` supplies more fuel than the input length, which is
always sufficient since a match consumes at least one character).  At each
position: if the placeholder pattern matches here, emit the replacement value
and continue after the match; otherwise emit the current character and
continue. -/
def subScanF (key value : List Char) : Nat → List Char → List Char
  | 0, cs => cs
  | _ + 1, [] => []
  | f + 1, c :: cs =>
    if c = '$' then
      match placeholderAt key cs with
      | some tail => value ++ subScanF key value f tail
      | none => c :: subScanF key value f cs
    else c :: subScanF key value f cs

/-- Embedding of `prompt_input` (main.py lines 83-85). -/
def prompt_input (prompt key value : String) : String :=
  String.mk (subScanF key.data value.data (prompt.data.length + 1) prompt.data)

/-- Whether the template contains an occurrence of the placeholder pattern
`\$\{\{\s+KEY\s+\}\}` for the given key. -/
def hasOcc (key : List Char) : List Char → Bool
  | [] => false
  | c :: cs => (c = '$' && (placeholderAt key cs).isSome) || hasOcc key cs

/-! ## JSON values, `json.dumps` and `json.loads`

`validate_input` relies on the Python standard library's `json` module (an
external collaborator of the program).  The fragment it exercises is embedded
here: JSON values with arbitrary-precision integer numbers (floating-point
literals are outside the model), objects as insertion-ordered key/value lists
with CPython's last-value-wins duplicate handling, `json.dumps` with its
default separators `", "`/`": "` and `ensure_ascii=True` escaping, and a
`json.loads` parser over the same fragment. -/

inductive Json where
  | null
  | bool (b : Bool)
  | num (n : Int)
  | str (s : String)
  | arr (elems : List Json)
  | obj (members : List (String × Json))

/-- JSON whitespace accepted between tokens: space, tab, newline, carriage
return. -/
def isJsonWs (c : Char) : Bool := c = ' ' || c = '\t' || c = '\n' || c = '\r'

def skipWs : List Char → List Char
  | [] => []
  | c :: cs => if isJsonWs c then skipWs cs else c :: cs

/-- The decimal digit character for `d < 10`. -/
def digitChr (d : Nat) : Char := Char.ofNat (48 + d)

/-- Little-endian decimal digits of `n` (empty for `0`); the fuel argument is
a termination device, sufficient whenever `n < fuel`. -/
def natToRevDigits : Nat → Nat → List Nat
  | 0, _ => []
  | f + 1, n => if n = 0 then [] else n % 10 :: natToRevDigits f (n / 10)

/-- Decimal representation of a natural number. -/
def natChars (n : Nat) : List Char :=
  if n = 0 then ['0'] else ((natToRevDigits (n + 1) n).map digitChr).reverse

/-- Decimal representation of a Python integer, as printed by `json.dumps`. -/
def intChars (n : Int) : List Char :=
  if n < 0 then '-' :: natChars n.natAbs else natChars n.natAbs

/-- The lowercase hexadecimal digit character for `d < 16`. -/
def hexDigitChr (d : Nat) : Char :=
  if d < 10 then Char.ofNat (48 + d) else Char.ofNat (87 + d)

/-- Four lowercase hex digits, as produced by Python's `\uXXXX` escapes. -/
def toHex4 (n : Nat) : List Char :=
  [hexDigitChr (n / 4096 % 16), hexDigitChr (n / 256 % 16),
   hexDigitChr (n / 16 % 16), hexDigitChr (n % 16)]

/-- Escape of a single character in a JSON string, as produced by
`json.dumps` with `ensure_ascii=True`: `"` and `\` are backslash-escaped,
the five short control escapes are used, other characters outside
`0x20..0x7e` become `\uXXXX` (one escape for the basic plane, a surrogate
pair for characters above `0xFFFF`). -/
def escChar (c : Char) : List Char :=
  if c = '"' then ['\\', '"']
  else if c = '\\' then ['\\', '\\']
  else if c = '\n' then ['\\', 'n']
  else if c = '\r' then ['\\', 'r']
  else if c = '\t' then ['\\', 't']
  else if c.toNat = 8 then ['\\', 'b']
  else if c.toNat = 12 then ['\\', 'f']
  else if 0x20 ≤ c.toNat ∧ c.toNat ≤ 0x7e then [c]
  else if c.toNat < 0x10000 then '\\' :: 'u' :: toHex4 c.toNat
  else
    '\\' :: 'u' :: toHex4 (0xD800 + (c.toNat - 0x10000) / 0x400) ++
    '\\' :: 'u' :: toHex4 (0xDC00 + (c.toNat - 0x10000) % 0x400)

/-- The escaped body of a JSON string. -/
def strBodyChars (s : List Char) : List Char :=
  s.foldr (fun c acc => escChar c ++ acc) []

/-- A quoted, escaped JSON string. -/
def qstringChars (s : String) : List Char := '"' :: strBodyChars s.data ++ ['"']

mutual

/-- `json.dumps` output of a value, with the default separators
`", "` and `": "`. -/
def printVal : Json → List Char
  | .null => ['n', 'u', 'l', 'l']
  | .num n => intChars n
  | .bool true => ['t', 'r', 'u', 'e']
  | .str s => qstringChars s
  | .bool false => ['f', 'a', 'l', 's', 'e']
  | .arr [] => ['[', ']']
  | .arr (x :: xs) => '[' :: (printVal x ++ printElemsCont xs)
  | .obj [] => ['\x7b', '\x7d']
  | .obj ((k, v) :: kvs) =>
    '\x7b' :: (qstringChars k ++ ':' :: ' ' :: printVal v ++ printMembersCont kvs)

/-- The printed continuation of an array after its first element. -/
def printElemsCont : List Json → List Char
  | [] => [']']
  | y :: ys => ',' :: ' ' :: (printVal y ++ printElemsCont ys)

/-- The printed continuation of an object after its first member. -/
def printMembersCont : List (String × Json) → List Char
  | [] => ['\x7d']
  | (k, v) :: kvs =>
    ',' :: ' ' :: (qstringChars k ++ ':' :: ' ' :: printVal v ++ printMembersCont kvs)

end

/-- `json.dumps` of a parsed value (default options). -/
def json_dumps (j : Json) : String := String.mk (printVal j)

mutual

/-- Fuel weight of a value for the parser: an upper bound on the recursion
depth budget `parseStep` needs to consume the printed form. -/
def wVal : Json → Nat
  | .null => 1
  | .bool _ => 1
  | .num _ => 1
  | .str _ => 1
  | .arr es => 1 + wTail es
  | .obj kvs => 1 + wMems kvs

def wTail : List Json → Nat
  | [] => 0
  | x :: xs => 1 + wVal x + wTail xs

def wMems : List (String × Json) → Nat
  | [] => 0
  | (_, v) :: kvs => 1 + wVal v + wMems kvs

end

/-- The value of a hexadecimal digit character (either case accepted, as by
Python's `\uXXXX` parsing). -/
def hexVal (c : Char) : Option Nat :=
  if '0' ≤ c ∧ c ≤ '9' then some (c.toNat - 48)
  else if 'a' ≤ c ∧ c ≤ 'f' then some (c.toNat - 87)
  else if 'A' ≤ c ∧ c ≤ 'F' then some (c.toNat - 55)
  else none

/-- The value of four hexadecimal digit characters. -/
def hex4 (a b c d : Char) : Option Nat := do
  let va ← hexVal a
  let vb ← hexVal b
  let vc ← hexVal c
  let vd ← hexVal d
  pure (((va * 16 + vb) * 16 + vc) * 16 + vd)

/-- Prepend a character to the string part of a string-body parse result. -/
def mapCons (c : Char) : Option (List Char × List Char) → Option (List Char × List Char) :=
  Option.map (fun p => (c :: p.1, p.2))

mutual

/-- Parser for the body of a JSON string (after the opening quote), returning
the decoded characters and the input after the closing quote.  Escapes are
decoded as Python's `json.loads` does; a `\uXXXX` high surrogate followed by a
low surrogate decodes to one astral character.  Lone surrogates and raw
control characters are rejected (Python accepts lone surrogates, producing
degenerate strings this model's `Char` cannot represent). -/
def parseStrBody : List Char → Option (List Char × List Char)
  | [] => none
  | c :: rest =>
    if c = '"' then some ([], rest)
    else if c = '\\' then parseEsc rest
    else if c.toNat < 32 then none
    else mapCons c (parseStrBody rest)

/-- Decode one backslash escape (the input starts after the backslash). -/
def parseEsc : List Char → Option (List Char × List Char)
  | [] => none
  | e :: r =>
    if e = '"' then mapCons '"' (parseStrBody r)
    else if e = '\\' then mapCons '\\' (parseStrBody r)
    else if e = '/' then mapCons '/' (parseStrBody r)
    else if e = 'b' then mapCons '\x08' (parseStrBody r)
    else if e = 'f' then mapCons '\x0c' (parseStrBody r)
    else if e = 'n' then mapCons '\n' (parseStrBody r)
    else if e = 'r' then mapCons '\r' (parseStrBody r)
    else if e = 't' then mapCons '\t' (parseStrBody r)
    else if e = 'u' then parseEscU r
    else none

/-- Decode the four hex digits of a `\uXXXX` escape; a high surrogate must
be followed by a `\uXXXX` low surrogate. -/
def parseEscU : List Char → Option (List Char × List Char)
  | a :: b :: c2 :: d :: r2 =>
    (match hex4 a b c2 d with
     | none => none
     | some n =>
       if 0xD800 ≤ n ∧ n ≤ 0xDBFF then parseEscPair n r2
       else if 0xDC00 ≤ n ∧ n ≤ 0xDFFF then none
       else mapCons (Char.ofNat n) (parseStrBody r2))
  | _ => none

/-- Decode the low-surrogate half following a high surrogate `n`. -/
def parseEscPair (n : Nat) : List Char → Option (List Char × List Char)
  | e1 :: e2 :: a2 :: b2 :: c3 :: d2 :: r3 =>
    if e1 = '\\' ∧ e2 = 'u' then
      match hex4 a2 b2 c3 d2 with
      | none => none
      | some m =>
        if 0xDC00 ≤ m ∧ m ≤ 0xDFFF then
          mapCons (Char.ofNat (0x10000 + (n - 0xD800) * 0x400 + (m - 0xDC00)))
            (parseStrBody r3)
        else none
    else none
  | _ => none

end

/-- Take a maximal run of decimal digits (as digit values). -/
def takeDigits : List Char → (List Nat × List Char)
  | [] => ([], [])
  | c :: cs =>
    if c.isDigit then
      let p := takeDigits cs
      ((c.toNat - 48) :: p.1, p.2)
    else ([], c :: cs)

/-- The number denoted by a big-endian digit-value list. -/
def digitsToNat (ds : List Nat) : Nat := ds.foldl (fun a d => a * 10 + d) 0

/-- Parse a run of one or more digits as a natural number. -/
def parseNat (cs : List Char) : Option (Nat × List Char) :=
  let p := takeDigits cs
  if p.1 = [] then none else some (digitsToNat p.1, p.2)

/-- CPython `dict` insertion: a repeated key keeps its original position and
takes the new value; a fresh key is appended. -/
def insertKey (kvs : List (String × Json)) (k : String) (v : Json) : List (String × Json) :=
  match kvs with
  | [] => [(k, v)]
  | (k2, v2) :: rest => if k2 = k then (k2, v) :: rest else (k2, v2) :: insertKey rest k v

/-- The mode of the recursive-descent JSON parser: parsing a value, the
continuation of an array after `[` (accumulated elements reversed), or the
continuation of an object after `{` (accumulated members in order). -/
inductive ParseMode where
  | val
  | arrTail (acc : List Json)
  | objTail (acc : List (String × Json))

/-- The recursive-descent core of `json.loads` on the embedded fragment.
The fuel only bounds the nesting of mutual-recursive steps; `json_loads`
supplies fuel larger than any budget the input can demand. -/
def parseStep : Nat → ParseMode → List Char → Option (Json × List Char)
  | 0, _, _ => none
  | f + 1, .val, cs =>
    match skipWs cs with
    | [] => none
    | c :: rest =>
      if c = 'n' then
        match rest with
        | 'u' :: 'l' :: 'l' :: r => some (.null, r)
        | _ => none
      else if c = 't' then
        match rest with
        | 'r' :: 'u' :: 'e' :: r => some (.bool true, r)
        | _ => none
      else if c = 'f' then
        match rest with
        | 'a' :: 'l' :: 's' :: 'e' :: r => some (.bool false, r)
        | _ => none
      else if c = '"' then
        match parseStrBody rest with
        | none => none
        | some (s, r) => some (.str (String.mk s), r)
      else if c = '[' then
        match skipWs rest with
        | [] => none
        | c2 :: r2 => if c2 = ']' then some (.arr [], r2) else parseStep f (.arrTail []) rest
      else if c = '\x7b' then
        match skipWs rest with
        | [] => none
        | c2 :: r2 => if c2 = '\x7d' then some (.obj [], r2) else parseStep f (.objTail []) rest
      else if c = '-' then
        match parseNat rest with
        | none => none
        | some (n, r) => some (.num (-(n : Int)), r)
      else if c.isDigit then
        match parseNat (c :: rest) with
        | none => none
        | some (n, r) => some (.num (n : Int), r)
      else none
  | f + 1, .arrTail acc, cs =>
    match parseStep f .val cs with
    | none => none
    | some (j, rest) =>
      match skipWs rest with
      | [] => none
      | c :: r2 =>
        if c = ',' then parseStep f (.arrTail (j :: acc)) r2
        else if c = ']' then some (.arr (j :: acc).reverse, r2)
        else none
  | f + 1, .objTail acc, cs =>
    match skipWs cs with
    | [] => none
    | c :: rest =>
      if c = '"' then
        match parseStrBody rest with
        | none => none
        | some (k, r1) =>
          match skipWs r1 with
          | [] => none
          | c2 :: r2 =>
            if c2 = ':' then
              match parseStep f .val r2 with
              | none => none
              | some (v, r3) =>
                match skipWs r3 with
                | [] => none
                | c3 :: r4 =>
                  if c3 = ',' then parseStep f (.objTail (insertKey acc (String.mk k) v)) r4
                  else if c3 = '\x7d' then some (.obj (insertKey acc (String.mk k) v), r4)
                  else none
            else none
      else none

/-- `json.loads` on the embedded fragment: parse one value, then require
only whitespace to remain. -/
def json_loads (s : String) : Option Json :=
  match parseStep (2 * s.data.length + 2) .val s.data with
  | none => none
  | some (j, rest) => if skipWs rest = [] then some j else none

/-- Python's `key in dict` membership test. -/
def hasKeyB (kvs : List (String × Json)) (k : String) : Bool :=
  kvs.any (fun kv => kv.1 = k)

/-- The member keys are pairwise distinct (as a CPython `dict` guarantees). -/
def keysNodupB : List (String × Json) → Bool
  | [] => true
  | kv :: kvs => kvs.all (fun kv2 => kv2.1 ≠ kv.1) && keysNodupB kvs

mutual

/-- A value is well-formed when every object inside it has pairwise-distinct
keys; every value produced by `json_loads` is well-formed, since objects are
built by `dict`-style insertion. -/
def wfVal : Json → Bool
  | .null => true
  | .bool _ => true
  | .num _ => true
  | .str _ => true
  | .arr es => wfElems es
  | .obj kvs => keysNodupB kvs && wfMems kvs

def wfElems : List Json → Bool
  | [] => true
  | x :: xs => wfVal x && wfElems xs

def wfMems : List (String × Json) → Bool
  | [] => true
  | kv :: kvs => wfVal kv.2 && wfMems kvs

end

/-- Embedding of `validate_input` (main.py lines 49-69).  Note line 58 of the
source: on a JSON value that is not an object it executes
`raise ValueError("Invalid battle input JSON") from e`, but `e` is only bound
inside the preceding `except` block, which did not run on this path — so the
interpreter raises `UnboundLocalError` while evaluating the `from e` clause,
not the constructed `ValueError`. -/
def validate_input (input : String) : Except PyExc String :=
  if input = "" then .error (.nameError "Input is not defined")
  else
    match json_loads input with
    | none => .error (.valueError "Battle input is not valid JSON")
    | some (.obj kvs) =>
      if ¬ hasKeyB kvs "player_data" then
        .error (.valueError "Battle input is missing player data")
      else if ¬ hasKeyB kvs "battle_state" then
        .error (.valueError "Battle input is missing battle state")
      else if ¬ hasKeyB kvs "request_data" then
        .error (.valueError "Battle input is missing request data")
      else if ¬ hasKeyB kvs "failed_actions" then
        .error (.valueError "Battle input is missing failed actions")
      else .ok (json_dumps (.obj kvs))
    | some _ => .error (.unboundLocalError "e")

/-! ## The remote client model

The `genai.Client` is an external collaborator.  Its server-side state is
modelled as the lists of uploaded files and content caches (in listing order)
plus a counter from which server-assigned resource names are minted; each
remote interaction the program performs is recorded in a call trace. -/

/-- A remote uploaded file (`types.File`): server-assigned `name`, the
caller-chosen `display_name`, and the MIME type supplied at upload. -/
structure RemoteFile where
  name : String
  display_name : Option String
  mime_type : Option String
deriving DecidableEq, Repr

/-- A remote content cache (`types.CachedContent`). -/
structure CachedContent where
  name : String
  display_name : Option String
  model : String
  system_instruction : String
  contents : Option (List RemoteFile)
  ttl : String
deriving DecidableEq, Repr

/-- The configuration passed to `generate_content`
(`types.GenerateContentConfig`): the program only ever sets one of the two
fields. -/
structure GenerateContentConfig where
  system_instruction : Option String
  cached_content : Option String
deriving DecidableEq, Repr

/-- One remote interaction issued by the program. -/
inductive RemoteCall where
  | listFiles
  | uploadFile (display_name : Option String) (mime_type : Option String) (path : String)
  | listCaches
  | createCache (model : String) (display_name : String) (system_instruction : String)
      (ttl : String)
  | getModel (model : String)
  | generateContent (model : String) (contents : String) (config : GenerateContentConfig)
deriving DecidableEq, Repr

/-- The remote service's state as visible to this program. -/
structure ClientState where
  files : List RemoteFile
  caches : List CachedContent
  nextId : Nat
deriving DecidableEq, Repr

/-- Number of upload (file-creation) calls in a trace. -/
def uploadCount (calls : List RemoteCall) : Nat :=
  calls.countP (fun c => match c with | .uploadFile _ _ _ => true | _ => false)

/-- Number of cache-creation calls in a trace. -/
def createCacheCount (calls : List RemoteCall) : Nat :=
  calls.countP (fun c => match c with | .createCache _ _ _ _ => true | _ => false)

/-- Number of file-listing calls in a trace. -/
def listFilesCount (calls : List RemoteCall) : Nat :=
  calls.countP (fun c => match c with | .listFiles => true | _ => false)

/-- Whether a call is a content-generation call. -/
def isGenCall : RemoteCall → Bool
  | .generateContent _ _ _ => true
  | _ => false

/-- Number of content-generation calls in a trace. -/
def generateCount (calls : List RemoteCall) : Nat := calls.countP isGenCall

/-- Decimal string of a natural number (used to mint server-assigned resource
names in the model). -/
def natStr (n : Nat) : String := String.mk (natChars n)

/-- Accumulate the current path segment (reversed); a `/` starts a new one. -/
def lastComponentAux : List Char → List Char → List Char
  | seg, [] => seg.reverse
  | _, '/' :: cs => lastComponentAux [] cs
  | seg, c :: cs => lastComponentAux (c :: seg) cs

/-- The final path component. -/
def lastComponent (p : String) : List Char := lastComponentAux [] p.data

/-- Model of `pathlib.Path.suffix`: the extension of the final component,
i.e. `name[i:]` for the last `.` at index `i` with `0 < i < len(name) - 1`,
else the empty string. -/
def pathSuffix (p : String) : String :=
  let base := lastComponent p
  let rev := base.reverse
  let pre := rev.takeWhile (fun c => c ≠ '.')
  if pre.length = rev.length then ""
  else if pre.length = 0 then ""
  else if rev.length - pre.length - 1 = 0 then ""
  else String.mk ('.' :: pre.reverse)

/-- Model of `mimetypes.guess_type` for the file extensions this program can
encounter (it only ever uploads `.json` files). -/
def guess_type (path : String) : Option String :=
  if pathSuffix path = ".json" then some "application/json"
  else if pathSuffix path = ".md" then some "text/markdown"
  else if pathSuffix path = ".txt" then some "text/plain"
  else none

/-- Result of `ensure_file`: the returned file reference, the client state
after the call, and the remote calls performed. -/
structure EnsureFileResult where
  file : RemoteFile
  state : ClientState
  calls : List RemoteCall
deriving DecidableEq, Repr

/-- Embedding of `ensure_file` (main.py lines 97-111): list the remote files;
return the first whose `display_name` equals the requested one; otherwise
guess a MIME type from the path and upload, the new file becoming visible in
subsequent listings. -/
def ensure_file (st : ClientState) (display_name path : String) : EnsureFileResult :=
  match st.files.find? (fun f => f.display_name == some display_name) with
  | some f => { file := f, state := st, calls := [.listFiles] }
  | none =>
    let f : RemoteFile :=
      { name := "files/" ++ natStr st.nextId
        display_name := some display_name
        mime_type := guess_type path }
    { file := f
      state := { files := st.files ++ [f], caches := st.caches, nextId := st.nextId + 1 }
      calls := [.listFiles, .uploadFile (some display_name) (guess_type path) path] }

/-- One character step of `re.sub(r"\W+", "_", s)` on the ASCII range: a
maximal run of non-word characters becomes a single underscore.  The flag
records whether the previous character was part of such a run. -/
def sanitizeAux : Bool → List Char → List Char
  | _, [] => []
  | inRun, c :: cs =>
    if isAsciiWordChar c then c :: sanitizeAux false cs
    else if inRun then sanitizeAux true cs
    else '_' :: sanitizeAux true cs

/-- `re.sub(r"\W+", "_", s)` (ASCII model). -/
def sanitizeName (s : String) : String := String.mk (sanitizeAux false s.data)

/-- An entry yielded by `dir.rglob("*")`: its path relative to the directory,
and whether it is a regular file. -/
structure DirEntry where
  relPath : String
  isFile : Bool
deriving DecidableEq, Repr

/-- The traversal loop of `ensure_all_files_in_directory`. -/
def ensureAllAux (pre dirPath : String) :
    List DirEntry → ClientState → List RemoteFile × ClientState × List RemoteCall
  | [], st => ([], st, [])
  | e :: es, st =>
    if e.isFile && (pathSuffix (dirPath ++ "/" ++ e.relPath) == ".json") then
      let r := ensure_file st (pre ++ "_" ++ sanitizeName e.relPath) (dirPath ++ "/" ++ e.relPath)
      let rest := ensureAllAux pre dirPath es r.state
      (r.file :: rest.1, rest.2.1, r.calls ++ rest.2.2)
    else ensureAllAux pre dirPath es st

/-- Embedding of `ensure_all_files_in_directory` (main.py lines 115-127) with
the orchestrator's `.json` filter: for every regular file under the directory
whose suffix is `.json`, derive a display name by prefixing and replacing
non-word runs in the relative path with `_`, and `ensure_file` it. -/
def ensure_all_files_in_directory (st : ClientState) (pre dirPath : String)
    (entries : List DirEntry) : List RemoteFile × ClientState × List RemoteCall :=
  ensureAllAux pre dirPath entries st

/-- Result of `ensure_cache`. -/
structure EnsureCacheResult where
  cache : CachedContent
  state : ClientState
  calls : List RemoteCall
deriving DecidableEq, Repr

/-- Embedding of `ensure_cache` (main.py lines 131-152): list the remote
caches; return the first whose `display_name` matches; otherwise create a
cache with the given model, instruction, attached files and a fixed TTL of
`"300s"`. -/
def ensure_cache (st : ClientState) (model display_name context : String)
    (files : Option (List RemoteFile)) : EnsureCacheResult :=
  match st.caches.find? (fun c => c.display_name == some display_name) with
  | some c => { cache := c, state := st, calls := [.listCaches] }
  | none =>
    let c : CachedContent :=
      { name := "cachedContents/" ++ natStr st.nextId
        display_name := some display_name
        model := model
        system_instruction := context
        contents := files
        ttl := "300s" }
    { cache := c
      state := { files := st.files, caches := st.caches ++ [c], nextId := st.nextId + 1 }
      calls := [.listCaches, .createCache model display_name context "300s"] }

/-- The program options consumed by the orchestrator (already validated by
the `Options` constructor). -/
structure Options where
  player : String
  input : String
  use_cache : Bool
  data : Option String
  use_data_files : Bool
deriving DecidableEq, Repr

/-- The behavior of the remote endpoints that are outside the reconciler's
state: the served model metadata, the directory listing behind
`options.data`, and the outcome of the single `generate_content` call (either
a transport/server error or a response whose `.text` may be absent). -/
structure RemoteEnv where
  modelName : String
  inputTokenLimit : Nat
  dataEntries : List DirEntry
  generateResult : Except String (Option String)
deriving DecidableEq, Repr

/-- Result of a `gemini_battler` run: the Python-level outcome (the returned
`response.text`, or the exception that aborted the run), the final client
state, and the remote calls made, in order. -/
structure RunResult where
  result : Except PyExc (Option String)
  state : ClientState
  calls : List RemoteCall
deriving DecidableEq, Repr

/-- Outcome of the `generate_content` call: a remote error propagates as the
SDK exception; otherwise the run returns `response.text` unchanged (the code
performs no emptiness check on it). -/
def mapGen : Except String (Option String) → Except PyExc (Option String)
  | .error m => .error (.remoteError m)
  | .ok t => .ok t

/-- Embedding of `gemini_battler` (main.py lines 165-211).  The client is
constructed (no remote call), then `client.models.get` resolves the model
metadata (one remote call) *before* the data-files configuration checks; a
configuration violation aborts the run at that point.  Otherwise the optional
file reconciliation, optional cache reconciliation, configuration build and
the single generation call follow in order. -/
def gemini_battler (env : RemoteEnv) (st : ClientState) (options : Options)
    (context prompt : String) : RunResult :=
  let getModelCall := RemoteCall.getModel "models/gemini-2.5-flash"
  if options.use_data_files && !options.use_cache then
    { result := .error (.valueError "Caching must be enabled if using data files")
      state := st
      calls := [getModelCall] }
  else if options.use_data_files && options.data.isNone then
    { result := .error (.valueError "Data directory must be defined if using data files")
      state := st
      calls := [getModelCall] }
  else
    let filesStep : Option (List RemoteFile) × ClientState × List RemoteCall :=
      if options.use_data_files then
        let r := ensure_all_files_in_directory st "data" (options.data.getD "") env.dataEntries
        (some r.1, r.2.1, r.2.2)
      else (none, st, [])
    if options.use_cache then
      let r := ensure_cache filesStep.2.1 env.modelName "battler" context filesStep.1
      let config : GenerateContentConfig :=
        { system_instruction := none, cached_content := some r.cache.name }
      { result := mapGen env.generateResult
        state := r.state
        calls := getModelCall :: filesStep.2.2 ++ r.calls ++
          [.generateContent env.modelName prompt config] }
    else
      let config : GenerateContentConfig :=
        { system_instruction := some context, cached_content := none }
      { result := mapGen env.generateResult
        state := filesStep.2.1
        calls := getModelCall :: filesStep.2.2 ++
          [.generateContent env.modelName prompt config] }

/-! ## Helper lemmas -/

theorem char_eq_iff_toNat (c c' : Char) : c = c' ↔ c.toNat = c'.toNat := by
  constructor
  · intro h; rw [h]
  · intro h
    have h1 : Char.ofNat c.toNat = Char.ofNat c'.toNat := by rw [h]
    rwa [Char.ofNat_toNat, Char.ofNat_toNat] at h1

/-- The character class `[\w-]` of the player regex, described by ASCII code
ranges: `A`-`Z`, `a`-`z`, `0`-`9`, `_`, `-`. -/
theorem isPlayerChar_iff (c : Char) : isPlayerChar c = true ↔
    (65 ≤ c.toNat ∧ c.toNat ≤ 90) ∨ (97 ≤ c.toNat ∧ c.toNat ≤ 122) ∨
    (48 ≤ c.toNat ∧ c.toNat ≤ 57) ∨ c.toNat = 95 ∨ c.toNat = 45 := by
  simp only [isPlayerChar, isAsciiWordChar, Char.isAlphanum, Char.isAlpha, Char.isDigit,
    Char.isUpper, Char.isLower, Bool.or_eq_true, Bool.and_eq_true, decide_eq_true_eq,
    char_eq_iff_toNat]
  constructor
  · rintro ((((⟨h1, h2⟩ | ⟨h1, h2⟩) | ⟨h1, h2⟩) | h) | h)
    exacts [Or.inl ⟨h1, h2⟩, Or.inr (Or.inl ⟨h1, h2⟩), Or.inr (Or.inr (Or.inl ⟨h1, h2⟩)),
      Or.inr (Or.inr (Or.inr (Or.inl h))), Or.inr (Or.inr (Or.inr (Or.inr h)))]
  · rintro (⟨h1, h2⟩ | ⟨h1, h2⟩ | ⟨h1, h2⟩ | h | h)
    exacts [Or.inl (Or.inl (Or.inl (Or.inl ⟨h1, h2⟩))), Or.inl (Or.inl (Or.inl (Or.inr ⟨h1, h2⟩))),
      Or.inl (Or.inl (Or.inr ⟨h1, h2⟩)), Or.inl (Or.inr h), Or.inr h]

theorem playerTail_iff : ∀ cs : List Char, playerTail cs = true ↔
    ∃ w : List Char, (∀ c ∈ w, isPlayerChar c = true) ∧ (cs = w ∨ cs = w ++ ['\n'])
  | [] => by
    simp only [playerTail, true_iff]
    exact ⟨[], by simp⟩
  | [c] => by
    simp only [playerTail, Bool.or_eq_true, decide_eq_true_eq]
    constructor
    · rintro (hc | hc)
      · exact ⟨[c], by simp [hc]⟩
      · exact ⟨[], by simp [hc]⟩
    · rintro ⟨w, hall, hcs | hcs⟩
      · subst hcs
        exact Or.inl (hall c (by simp))
      · rcases w with _ | ⟨a, w'⟩
        · simp only [List.nil_append, List.cons.injEq] at hcs
          exact Or.inr hcs.1
        · rw [List.cons_append] at hcs
          injection hcs with h1 h2
          exact absurd h2 (by simp)
  | c :: c2 :: cs => by
    simp only [playerTail, Bool.and_eq_true]
    rw [playerTail_iff (c2 :: cs)]
    constructor
    · rintro ⟨hc, w', hall', hcs' | hcs'⟩
      · exact ⟨c :: w', by simpa [hc] using hall', Or.inl (by rw [hcs'])⟩
      · exact ⟨c :: w', by simpa [hc] using hall', Or.inr (by rw [hcs']; rfl)⟩
    · rintro ⟨w, hall, hcs | hcs⟩
      · subst hcs
        refine ⟨hall c (by simp), c2 :: cs, fun x hx => hall x (by simp [hx]), Or.inl rfl⟩
      · rcases w with _ | ⟨a, w'⟩
        · rw [List.nil_append] at hcs
          injection hcs with h1 h2
          exact absurd h2 (by simp)
        · rw [List.cons_append] at hcs
          injection hcs with h1 h2
          subst h1
          refine ⟨hall c (by simp), w', fun x hx => hall x (by simp [hx]), Or.inr h2⟩

theorem playerAccepts_iff (cs : List Char) : playerAccepts cs = true ↔
    ∃ w : List Char, w ≠ [] ∧ (∀ c ∈ w, isPlayerChar c = true) ∧
      (cs = w ∨ cs = w ++ ['\n']) := by
  rcases cs with _ | ⟨c, cs'⟩
  · constructor
    · intro h; exact absurd h (by simp [playerAccepts])
    · rintro ⟨w, hne, _, hcs | hcs⟩
      · exact absurd hcs.symm hne
      · rcases w with _ | ⟨a, w'⟩
        · exact absurd rfl hne
        · exact absurd hcs (by simp)
  · simp only [playerAccepts, Bool.and_eq_true]
    rw [playerTail_iff cs']
    constructor
    · rintro ⟨hc, w', hall', hcs' | hcs'⟩
      · exact ⟨c :: w', by simp, by simpa [hc] using hall', Or.inl (by rw [hcs'])⟩
      · exact ⟨c :: w', by simp, by simpa [hc] using hall', Or.inr (by rw [hcs']; rfl)⟩
    · rintro ⟨w, hne, hall, hcs | hcs⟩
      · subst hcs
        refine ⟨hall c (by simp), cs', fun x hx => hall x (by simp [hx]), Or.inl rfl⟩
      · rcases w with _ | ⟨a, w'⟩
        · exact absurd rfl hne
        · rw [List.cons_append] at hcs
          injection hcs with h1 h2
          subst h1
          refine ⟨hall c (by simp), w', fun x hx => hall x (by simp [hx]), Or.inr h2⟩

/-! ## Claim C4 -/

/-- Claim C4 is false as stated: a placeholder with zero whitespace between
the braces and the key is *not* replaced — `re.sub` with pattern
`\$\{\{\s+KEY\s+\}\}` requires at least one whitespace character on each
side of the key, so `render("${{X}}", "X", "Y")` leaves the template
unchanged and differs from `render("${{ X }}", "X", "Y") = "Y"`. -/
theorem C4_counterexample :
    prompt_input "$\x7b\x7bX\x7d\x7d" "X" "Y" = "$\x7b\x7bX\x7d\x7d" ∧
    prompt_input "$\x7b\x7bX\x7d\x7d" "X" "Y" ≠ "Y" ∧
    prompt_input "$\x7b\x7bX\x7d\x7d" "X" "Y" ≠ prompt_input "$\x7b\x7b X \x7d\x7d" "X" "Y" := by
  refine ⟨rfl, by decide, by decide⟩

/-- Claim C4, amended: rendering is whitespace-tolerant inside the braces for
*one or more* whitespace characters on each side of the key — `${{ X }}`,
`${{   X   }}` and tab/newline variants are all replaced by the value — but a
placeholder with zero whitespace on either side (`${{X}}`, `${{X }}`,
`${{ X}}`) is not matched and is left unchanged. -/
theorem C4_whitespace_amended :
    prompt_input "$\x7b\x7b X \x7d\x7d" "X" "Y" = "Y" ∧
    prompt_input "$\x7b\x7b   X   \x7d\x7d" "X" "Y" = "Y" ∧
    prompt_input "$\x7b\x7b \t\n X \n\x7d\x7d" "X" "Y" = "Y" ∧
    prompt_input "a $\x7b\x7b X \x7d\x7d b" "X" "Y" = "a Y b" ∧
    prompt_input "$\x7b\x7bX\x7d\x7d" "X" "Y" = "$\x7b\x7bX\x7d\x7d" ∧
    prompt_input "$\x7b\x7bX \x7d\x7d" "X" "Y" = "$\x7b\x7bX \x7d\x7d" ∧
    prompt_input "$\x7b\x7b X\x7d\x7d" "X" "Y" = "$\x7b\x7b X\x7d\x7d" :=
  ⟨rfl, rfl, rfl, rfl, rfl, rfl, rfl⟩

/-! ## Claim C5 -/

/-- Claim C5 is false as stated: `"a\n"` contains a character (`'\n'`)
outside `[A-Za-z0-9_-]`, yet `validate_player` accepts it and returns it
unchanged (including the newline), because Python's `$` also matches just
before a trailing newline.  It does not fail with `InvalidFormat`. -/
theorem C5_counterexample :
    validate_player "a\n" = Except.ok "a\n" ∧
    ('\n' ∈ ("a\n" : String).data ∧ isPlayerChar '\n' = false) := by
  refine ⟨rfl, by decide, rfl⟩

/-- Claim C5, amended (stated for ASCII strings; Python's `\w` additionally
accepts non-ASCII word characters, outside the claim's character set):
`validate_player` accepts a non-empty string exactly when it consists of one
or more characters of `[A-Za-z0-9_-]` optionally followed by one trailing
newline — Python's `$` matches before a final `'\n'` — and returns it
unchanged, newline included.  Every other non-empty string fails with
`ValueError("Player is not an alphanumeric ID")`, the spec's
`InvalidFormat`. -/
theorem C5_player_validation (s : String)
    (hascii : ∀ c ∈ s.data, c.toNat < 128) (hne : s ≠ "") :
    (validate_player s = Except.ok s ↔
      ∃ w : List Char, w ≠ [] ∧
        (∀ c ∈ w, (65 ≤ c.toNat ∧ c.toNat ≤ 90) ∨ (97 ≤ c.toNat ∧ c.toNat ≤ 122) ∨
          (48 ≤ c.toNat ∧ c.toNat ≤ 57) ∨ c.toNat = 95 ∨ c.toNat = 45) ∧
        (s.data = w ∨ s.data = w ++ ['\n'])) ∧
    (validate_player s ≠ Except.ok s →
      validate_player s = Except.error (PyExc.valueError "Player is not an alphanumeric ID") ∧
      errKind (PyExc.valueError "Player is not an alphanumeric ID") = ErrKind.InvalidFormat) := by
  unfold validate_player
  rw [if_neg hne]
  by_cases hacc : playerAccepts s.data = true
  · rw [if_pos hacc]
    constructor
    · constructor
      · intro _
        rcases (playerAccepts_iff s.data).mp hacc with ⟨w, hne', hall, hcs⟩
        exact ⟨w, hne', fun c hc => (isPlayerChar_iff c).mp (hall c hc), hcs⟩
      · intro _; rfl
    · intro h; exact absurd rfl h
  · rw [if_neg hacc]
    refine ⟨⟨fun h => absurd h (by simp), ?_⟩, fun _ => ⟨rfl, rfl⟩⟩
    rintro ⟨w, hne', hall, hcs⟩
    exact absurd ((playerAccepts_iff s.data).mpr
      ⟨w, hne', fun c hc => (isPlayerChar_iff c).mpr (hall c hc), hcs⟩) hacc

/-- Witness for `C5_player_validation` at the concrete player ID `"p1-X_"`. -/
theorem C5_player_validation_witness :
    validate_player "p1-X_" = Except.ok "p1-X_" :=
  (C5_player_validation "p1-X_" (by decide) (by decide)).1.mpr
    ⟨("p1-X_" : String).data, by decide, by decide, Or.inl rfl⟩

/-! ## Claim C6 -/

/-- Claim C6 is wrong about the code, and the code is wrong (a slip):
for a non-empty input that parses as JSON but is not an object (an array or a
scalar), line 58 executes `raise ValueError("Invalid battle input JSON") from e`
where `e` is unbound (it is only bound inside the preceding `except` block,
which did not run), so the interpreter raises `UnboundLocalError` instead of
the intended `ValueError` — a different error kind from the `InvalidFormat`
(`ValueError`) produced for malformed text. -/
theorem C6_nonobject_error_kinds :
    validate_input "[]" = Except.error (PyExc.unboundLocalError "e") ∧
    validate_input "3" = Except.error (PyExc.unboundLocalError "e") ∧
    validate_input "\"s\"" = Except.error (PyExc.unboundLocalError "e") ∧
    validate_input "not json" = Except.error (PyExc.valueError "Battle input is not valid JSON") ∧
    errKind (PyExc.unboundLocalError "e") ≠ ErrKind.InvalidFormat ∧
    errKind (PyExc.unboundLocalError "e") ≠
      errKind (PyExc.valueError "Battle input is not valid JSON") :=
  ⟨rfl, rfl, rfl, rfl, by decide, by decide⟩

/-! ## Claims C1 and C10 -/

theorem displayEq_iff (f : RemoteFile) (dn : String) :
    ((f.display_name == some dn) = true) ↔ f.display_name = some dn := beq_iff_eq

/-- Claim C1: `ensure_file` is idempotent under display-name lookup.  If the
client's file listing contains a file whose `display_name` equals the
requested one, `ensure_file` returns such a file, performs no upload, and
leaves the client state unchanged; if none matches, it performs exactly one
upload.  In either case, calling it a second time (any local path) against
the resulting state returns the same reference with no further upload, so
the two calls together perform at most one creation (exactly one when the
name was initially absent) and exactly two listing calls. -/
theorem C1_ensure_file_idempotent (st : ClientState) (dn p p2 : String) :
    ((∃ f ∈ st.files, f.display_name = some dn) →
      (ensure_file st dn p).file ∈ st.files ∧
      (ensure_file st dn p).file.display_name = some dn ∧
      uploadCount (ensure_file st dn p).calls = 0 ∧
      (ensure_file st dn p).state = st) ∧
    ((¬ ∃ f ∈ st.files, f.display_name = some dn) →
      uploadCount (ensure_file st dn p).calls = 1 ∧
      (ensure_file st dn p).file.display_name = some dn) ∧
    (ensure_file (ensure_file st dn p).state dn p2).file = (ensure_file st dn p).file ∧
    uploadCount (ensure_file (ensure_file st dn p).state dn p2).calls = 0 ∧
    uploadCount (ensure_file st dn p).calls +
      uploadCount (ensure_file (ensure_file st dn p).state dn p2).calls ≤ 1 ∧
    listFilesCount (ensure_file st dn p).calls +
      listFilesCount (ensure_file (ensure_file st dn p).state dn p2).calls = 2 := by
  rcases hfind : st.files.find? (fun f => f.display_name == some dn) with _ | f
  · have hnone : ∀ f ∈ st.files, ¬ (f.display_name = some dn) := by
      intro f hf hdn
      exact (List.find?_eq_none.mp hfind f hf) ((displayEq_iff f dn).mpr hdn)
    have h1 : ensure_file st dn p =
        { file := ⟨"files/" ++ natStr st.nextId, some dn, guess_type p⟩
          state := ⟨st.files ++ [⟨"files/" ++ natStr st.nextId, some dn, guess_type p⟩],
            st.caches, st.nextId + 1⟩
          calls := [.listFiles, .uploadFile (some dn) (guess_type p) p] } := by
      simp only [ensure_file, hfind]
    have hfind2 : (st.files ++ [(⟨"files/" ++ natStr st.nextId, some dn, guess_type p⟩ :
        RemoteFile)]).find? (fun f => f.display_name == some dn) =
        some ⟨"files/" ++ natStr st.nextId, some dn, guess_type p⟩ := by
      rw [List.find?_append, hfind]
      exact @List.find?_cons_of_pos RemoteFile (fun f => f.display_name == some dn) _ _
        ((displayEq_iff ⟨"files/" ++ natStr st.nextId, some dn, guess_type p⟩ dn).mpr rfl)
    have h2 : ensure_file (ensure_file st dn p).state dn p2 =
        { file := ⟨"files/" ++ natStr st.nextId, some dn, guess_type p⟩
          state := (ensure_file st dn p).state
          calls := [.listFiles] } := by
      rw [h1]
      simp only [ensure_file]
      rw [hfind2]
    refine ⟨?_, fun _ => ?_, ?_, ?_, ?_, ?_⟩
    · rintro ⟨f, hf, hdn⟩
      exact absurd hdn (hnone f hf)
    · rw [h1]
      exact ⟨rfl, rfl⟩
    · rw [h2, h1]
    · rw [h2]
      rfl
    · rw [h2, h1]
      exact Nat.le_refl 1
    · rw [h2, h1]
      rfl
  · have hp := List.find?_some hfind
    have hmem := List.mem_of_find?_eq_some hfind
    have hdn := (displayEq_iff f dn).mp hp
    have h1 : ensure_file st dn p =
        { file := f, state := st, calls := [.listFiles] } := by
      simp only [ensure_file, hfind]
    have h2 : ensure_file (ensure_file st dn p).state dn p2 =
        { file := f, state := st, calls := [.listFiles] } := by
      rw [h1]
      simp only [ensure_file, hfind]
    refine ⟨fun _ => ?_, fun hno => absurd ⟨f, hmem, hdn⟩ hno, ?_, ?_, ?_, ?_⟩
    · rw [h1]; exact ⟨hmem, hdn, rfl, rfl⟩
    · rw [h2, h1]
    · rw [h2]
      rfl
    · rw [h2, h1]
      exact Nat.zero_le 1
    · rw [h2, h1]
      rfl

/-- Witness for `C1_ensure_file_idempotent` at the empty client state: the
first call uploads once, the second returns the same reference with no
upload. -/
theorem C1_ensure_file_idempotent_witness :
    uploadCount (ensure_file ⟨[], [], 0⟩ "d" "a.json").calls = 1 ∧
    (ensure_file (ensure_file ⟨[], [], 0⟩ "d" "a.json").state "d" "a.json").file =
      (ensure_file ⟨[], [], 0⟩ "d" "a.json").file ∧
    uploadCount (ensure_file (ensure_file ⟨[], [], 0⟩ "d" "a.json").state "d" "a.json").calls = 0 := by
  have h := C1_ensure_file_idempotent ⟨[], [], 0⟩ "d" "a.json" "a.json"
  exact ⟨(h.2.1 (by simp)).1, h.2.2.1, h.2.2.2.1⟩

/-- Claim C10: when the remote listing contains more than one file with the
requested display name, `ensure_file` returns the *first* matching file in
listing order, performs no upload, leaves the state unchanged, and a repeated
call against the same listing returns the same reference. -/
theorem C10_first_match_on_duplicates (pre mid post : List RemoteFile) (f1 f2 : RemoteFile)
    (caches : List CachedContent) (nextId : Nat) (dn p p2 : String)
    (hpre : ∀ g ∈ pre, g.display_name ≠ some dn)
    (h1 : f1.display_name = some dn) (h2 : f2.display_name = some dn) :
    (ensure_file ⟨pre ++ f1 :: mid ++ f2 :: post, caches, nextId⟩ dn p).file = f1 ∧
    uploadCount (ensure_file ⟨pre ++ f1 :: mid ++ f2 :: post, caches, nextId⟩ dn p).calls = 0 ∧
    (ensure_file ⟨pre ++ f1 :: mid ++ f2 :: post, caches, nextId⟩ dn p).state =
      ⟨pre ++ f1 :: mid ++ f2 :: post, caches, nextId⟩ ∧
    (ensure_file
      (ensure_file ⟨pre ++ f1 :: mid ++ f2 :: post, caches, nextId⟩ dn p).state dn p2).file = f1 := by
  have hfind : (pre ++ f1 :: mid ++ f2 :: post).find?
      (fun f => f.display_name == some dn) = some f1 := by
    rw [List.append_assoc, List.find?_append]
    have hpre' : pre.find? (fun f => f.display_name == some dn) = none := by
      rw [List.find?_eq_none]
      intro x hx hbx
      exact hpre x hx ((displayEq_iff x dn).mp hbx)
    rw [hpre', List.cons_append,
      @List.find?_cons_of_pos RemoteFile (fun f => f.display_name == some dn) f1 _
        ((displayEq_iff f1 dn).mpr h1)]
    rfl
  have hmain : ensure_file ⟨pre ++ f1 :: mid ++ f2 :: post, caches, nextId⟩ dn p =
      { file := f1, state := ⟨pre ++ f1 :: mid ++ f2 :: post, caches, nextId⟩,
        calls := [.listFiles] } := by
    simp only [ensure_file]
    rw [hfind]
  refine ⟨by rw [hmain], by rw [hmain]; rfl, by rw [hmain], ?_⟩
  rw [hmain]
  simp only [ensure_file]
  rw [hfind]

/-- Witness for `C10_first_match_on_duplicates`: a listing holding two
distinct files with the same display name (as a duplicate-creation race can
leave behind) yields the first of the two, twice, with no upload. -/
theorem C10_first_match_on_duplicates_witness :
    (ensure_file ⟨[⟨"files/0", some "other", none⟩, ⟨"files/1", some "d", none⟩,
        ⟨"files/2", some "d", none⟩], [], 3⟩ "d" "x").file =
      ⟨"files/1", some "d", none⟩ ∧
    uploadCount (ensure_file ⟨[⟨"files/0", some "other", none⟩, ⟨"files/1", some "d", none⟩,
        ⟨"files/2", some "d", none⟩], [], 3⟩ "d" "x").calls = 0 := by
  have h := C10_first_match_on_duplicates [⟨"files/0", some "other", none⟩] []
    [] ⟨"files/1", some "d", none⟩ ⟨"files/2", some "d", none⟩ [] 3 "d" "x" "x"
    (by decide) rfl rfl
  exact ⟨h.1, h.2.1⟩

/-! ## Claims C2, C3, C9 -/

theorem gb_error_nocache (env : RemoteEnv) (st : ClientState) (options : Options)
    (context prompt : String) (hudf : options.use_data_files = true)
    (huc : options.use_cache = false) :
    gemini_battler env st options context prompt =
      { result := .error (.valueError "Caching must be enabled if using data files")
        state := st
        calls := [.getModel "models/gemini-2.5-flash"] } := by
  simp only [gemini_battler, hudf, huc, Bool.not_false, Bool.and_self, if_pos]

theorem gb_error_nodata (env : RemoteEnv) (st : ClientState) (options : Options)
    (context prompt : String) (hudf : options.use_data_files = true)
    (huc : options.use_cache = true) (hdata : options.data = none) :
    gemini_battler env st options context prompt =
      { result := .error (.valueError "Data directory must be defined if using data files")
        state := st
        calls := [.getModel "models/gemini-2.5-flash"] } := by
  simp only [gemini_battler, hudf, huc, hdata, Bool.not_true, Bool.and_false,
    Bool.false_eq_true, if_false, Option.isNone_none, Bool.and_true, if_pos]

theorem gb_eq_plain (env : RemoteEnv) (st : ClientState) (options : Options)
    (context prompt : String) (hudf : options.use_data_files = false)
    (huc : options.use_cache = false) :
    gemini_battler env st options context prompt =
      { result := mapGen env.generateResult
        state := st
        calls := [.getModel "models/gemini-2.5-flash",
          .generateContent env.modelName prompt ⟨some context, none⟩] } := by
  simp only [gemini_battler, hudf, huc, Bool.false_and, Bool.false_eq_true, if_false,
    List.nil_append]
  rfl

theorem gb_eq_cache_nodata (env : RemoteEnv) (st : ClientState) (options : Options)
    (context prompt : String) (hudf : options.use_data_files = false)
    (huc : options.use_cache = true) :
    gemini_battler env st options context prompt =
      { result := mapGen env.generateResult
        state := (ensure_cache st env.modelName "battler" context none).state
        calls := .getModel "models/gemini-2.5-flash" ::
          (ensure_cache st env.modelName "battler" context none).calls ++
          [.generateContent env.modelName prompt
            ⟨none, some (ensure_cache st env.modelName "battler" context none).cache.name⟩] } := by
  simp only [gemini_battler, hudf, huc, Bool.false_and, Bool.false_eq_true, if_false, if_pos,
    List.nil_append]
  rfl

theorem gb_eq_cache_data (env : RemoteEnv) (st : ClientState) (options : Options)
    (context prompt : String) (d : String) (hudf : options.use_data_files = true)
    (huc : options.use_cache = true) (hdata : options.data = some d) :
    gemini_battler env st options context prompt =
      { result := mapGen env.generateResult
        state := (ensure_cache
          (ensure_all_files_in_directory st "data" d env.dataEntries).2.1
          env.modelName "battler" context
          (some (ensure_all_files_in_directory st "data" d env.dataEntries).1)).state
        calls := .getModel "models/gemini-2.5-flash" ::
          (ensure_all_files_in_directory st "data" d env.dataEntries).2.2 ++
          (ensure_cache
            (ensure_all_files_in_directory st "data" d env.dataEntries).2.1
            env.modelName "battler" context
            (some (ensure_all_files_in_directory st "data" d env.dataEntries).1)).calls ++
          [.generateContent env.modelName prompt
            ⟨none, some (ensure_cache
              (ensure_all_files_in_directory st "data" d env.dataEntries).2.1
              env.modelName "battler" context
              (some (ensure_all_files_in_directory st "data" d env.dataEntries).1)).cache.name⟩] } := by
  simp only [gemini_battler, hudf, huc, hdata, Bool.not_true, Bool.and_false,
    Bool.false_eq_true, if_false, Option.isNone_some, Bool.and_self, if_pos,
    Option.getD_some]

theorem ensure_file_calls_no_gen (st : ClientState) (dn p : String) :
    ∀ x ∈ (ensure_file st dn p).calls, isGenCall x = false := by
  intro x hx
  unfold ensure_file at hx
  rcases hfind : st.files.find? (fun f => f.display_name == some dn) with _ | f <;>
    simp only [hfind, List.mem_cons, List.mem_singleton, List.not_mem_nil, or_false] at hx
  · rcases hx with rfl | rfl <;> rfl
  · subst hx
    rfl

theorem ensureAllAux_calls_no_gen (pre dirPath : String) :
    ∀ (entries : List DirEntry) (st : ClientState),
      ∀ x ∈ (ensureAllAux pre dirPath entries st).2.2, isGenCall x = false
  | [], st => by
    intro x hx
    cases hx
  | e :: es, st => by
    intro x hx
    unfold ensureAllAux at hx
    by_cases hc : (e.isFile && (pathSuffix (dirPath ++ "/" ++ e.relPath) == ".json")) = true
    · rw [if_pos hc] at hx
      rcases List.mem_append.mp hx with hx1 | hx2
      · exact ensure_file_calls_no_gen _ _ _ x hx1
      · exact ensureAllAux_calls_no_gen pre dirPath es _ x hx2
    · rw [if_neg hc] at hx
      exact ensureAllAux_calls_no_gen pre dirPath es st x hx

theorem ensure_cache_calls_no_gen (st : ClientState) (model dn context : String)
    (files : Option (List RemoteFile)) :
    ∀ x ∈ (ensure_cache st model dn context files).calls, isGenCall x = false := by
  intro x hx
  unfold ensure_cache at hx
  rcases hfind : st.caches.find? (fun c2 => c2.display_name == some dn) with _ | c <;>
    simp only [hfind, List.mem_cons, List.mem_singleton, List.not_mem_nil, or_false] at hx
  · rcases hx with rfl | rfl <;> rfl
  · subst hx
    rfl

theorem ensure_cache_spec (st : ClientState) (model dn context : String)
    (files : Option (List RemoteFile)) :
    (ensure_cache st model dn context files).cache.display_name = some dn ∧
    (ensure_cache st model dn context files).cache ∈
      (ensure_cache st model dn context files).state.caches := by
  unfold ensure_cache
  rcases hfind : st.caches.find? (fun c2 => c2.display_name == some dn) with _ | c <;>
    simp only [hfind]
  · constructor <;> simp
  · have hp := @List.find?_some CachedContent (fun c2 => c2.display_name == some dn)
      c st.caches hfind
    exact ⟨beq_iff_eq.mp hp, List.mem_of_find?_eq_some hfind⟩

/-- Claim C2: configuration exclusivity.  Every generation call issued by a
run of `gemini_battler` carries the prompt as its sole contents and a
configuration that never holds an inline system instruction and a cache
reference simultaneously: with `use_cache` the configuration names the
reconciled `"battler"` cache (present in the resulting client state) and has
no inline instruction; without it, the configuration carries the system
context inline and no cache reference. -/
theorem C2_config_exclusivity (env : RemoteEnv) (st : ClientState) (options : Options)
    (context prompt : String) (m c : String) (cfg : GenerateContentConfig)
    (hmem : RemoteCall.generateContent m c cfg ∈
      (gemini_battler env st options context prompt).calls) :
    ¬ (cfg.system_instruction.isSome = true ∧ cfg.cached_content.isSome = true) ∧
    c = prompt ∧
    (options.use_cache = true →
      cfg.system_instruction = none ∧
      ∃ cache ∈ (gemini_battler env st options context prompt).state.caches,
        cache.display_name = some "battler" ∧ cfg.cached_content = some cache.name) ∧
    (options.use_cache = false →
      cfg.system_instruction = some context ∧ cfg.cached_content = none) := by
  rcases hudf : options.use_data_files <;> rcases huc : options.use_cache
  · rw [gb_eq_plain env st options context prompt hudf huc] at hmem ⊢
    simp only [List.mem_cons, List.mem_singleton, List.not_mem_nil, or_false] at hmem
    rcases hmem with h | h
    · cases h
    · injection h with h1 h2 h3
      subst h2
      subst h3
      refine ⟨by simp, rfl, fun hcc => absurd hcc (by simp), fun _ => ⟨rfl, rfl⟩⟩
  · rw [gb_eq_cache_nodata env st options context prompt hudf huc] at hmem ⊢
    simp only [List.mem_cons, List.mem_append, List.mem_singleton, List.not_mem_nil,
      or_false, or_assoc] at hmem
    rcases hmem with h | h | h
    · cases h
    · have hng := ensure_cache_calls_no_gen st env.modelName "battler" context none _ h
      simp [isGenCall] at hng
    · injection h with h1 h2 h3
      subst h2
      subst h3
      refine ⟨by simp, rfl, fun _ => ⟨rfl, ?_⟩, fun hcc => absurd hcc (by simp)⟩
      obtain ⟨hdn, hmemc⟩ := ensure_cache_spec st env.modelName "battler" context none
      exact ⟨_, hmemc, hdn, rfl⟩
  · rw [gb_error_nocache env st options context prompt hudf huc] at hmem
    simp only [List.mem_singleton] at hmem
    cases hmem
  · rcases hdata : options.data with _ | d
    · rw [gb_error_nodata env st options context prompt hudf huc hdata] at hmem
      simp only [List.mem_singleton] at hmem
      cases hmem
    · rw [gb_eq_cache_data env st options context prompt d hudf huc hdata] at hmem ⊢
      simp only [List.mem_cons, List.mem_append, List.mem_singleton, List.not_mem_nil,
        or_false, or_assoc] at hmem
      rcases hmem with h | h | h | h
      · cases h
      · have hng := ensureAllAux_calls_no_gen "data" d env.dataEntries st _ h
        simp [isGenCall] at hng
      · have hng := ensure_cache_calls_no_gen
          (ensure_all_files_in_directory st "data" d env.dataEntries).2.1 env.modelName
          "battler" context (some (ensure_all_files_in_directory st "data" d env.dataEntries).1)
          _ h
        simp [isGenCall] at hng
      · injection h with h1 h2 h3
        subst h2
        subst h3
        refine ⟨by simp, rfl, fun _ => ⟨rfl, ?_⟩, fun hcc => absurd hcc (by simp)⟩
        obtain ⟨hdn, hmemc⟩ := ensure_cache_spec
          (ensure_all_files_in_directory st "data" d env.dataEntries).2.1 env.modelName
          "battler" context (some (ensure_all_files_in_directory st "data" d env.dataEntries).1)
        exact ⟨_, hmemc, hdn, rfl⟩

/-- Witness for `C2_config_exclusivity`: a concrete cached run whose single
generation call references the created cache by name with no inline
instruction. -/
theorem C2_config_exclusivity_witness :
    ¬ ((⟨none, some "cachedContents/0"⟩ : GenerateContentConfig).system_instruction.isSome = true ∧
       (⟨none, some "cachedContents/0"⟩ : GenerateContentConfig).cached_content.isSome = true) ∧
    (⟨none, some "cachedContents/0"⟩ : GenerateContentConfig).system_instruction = none := by
  have h := C2_config_exclusivity
    ⟨"models/gemini-2.5-flash-001", 1000000, [], Except.ok (some "move 1")⟩
    ⟨[], [], 0⟩ ⟨"p1", "i", true, none, false⟩ "ctx" "prompt"
    "models/gemini-2.5-flash-001" "prompt" ⟨none, some "cachedContents/0"⟩ (by decide)
  exact ⟨h.1, (h.2.2.1 rfl).1⟩

/-- Claim C3 is false as stated: with `use_data_files` and `use_cache=false`
the run does fail with the `InvalidConfiguration` `ValueError` before any
list, upload, create-cache or generate call — but only *after* one remote
model-metadata call (`client.models.get` at main.py line 168 precedes the
configuration check at lines 177-181), so the failure is not "before any
remote interaction". -/
theorem C3_counterexample :
    (gemini_battler ⟨"m", 5, [], Except.ok (some "t")⟩ ⟨[], [], 0⟩
      ⟨"p1", "i", false, none, true⟩ "ctx" "prompt").result =
      Except.error (PyExc.valueError "Caching must be enabled if using data files") ∧
    errKind (PyExc.valueError "Caching must be enabled if using data files") =
      ErrKind.InvalidConfiguration ∧
    (gemini_battler ⟨"m", 5, [], Except.ok (some "t")⟩ ⟨[], [], 0⟩
      ⟨"p1", "i", false, none, true⟩ "ctx" "prompt").calls =
      [RemoteCall.getModel "models/gemini-2.5-flash"] :=
  ⟨rfl, rfl, rfl⟩

/-- Claim C3, amended: for every run with `use_data_files` and either
`use_cache=false` or no data directory, the run fails with the
`InvalidConfiguration` `ValueError`, the client state is unchanged, and the
call trace is exactly one model-metadata call — so no list, upload,
create-cache or generate call is ever issued, but one model-metadata call
(`client.models.get`) does precede the failure. -/
theorem C3_invalid_config_fails_early (env : RemoteEnv) (st : ClientState) (options : Options)
    (context prompt : String) (hudf : options.use_data_files = true)
    (hbad : options.use_cache = false ∨ options.data = none) :
    (∃ msg, (gemini_battler env st options context prompt).result =
        Except.error (PyExc.valueError msg) ∧
      errKind (PyExc.valueError msg) = ErrKind.InvalidConfiguration) ∧
    (gemini_battler env st options context prompt).state = st ∧
    (gemini_battler env st options context prompt).calls =
      [RemoteCall.getModel "models/gemini-2.5-flash"] := by
  rcases hbad with huc | hdata
  · rw [gb_error_nocache env st options context prompt hudf huc]
    exact ⟨⟨"Caching must be enabled if using data files", rfl, rfl⟩, rfl, rfl⟩
  · rcases huc : options.use_cache
    · rw [gb_error_nocache env st options context prompt hudf huc]
      exact ⟨⟨"Caching must be enabled if using data files", rfl, rfl⟩, rfl, rfl⟩
    · rw [gb_error_nodata env st options context prompt hudf huc hdata]
      exact ⟨⟨"Data directory must be defined if using data files", rfl, rfl⟩, rfl, rfl⟩

/-- Witness for `C3_invalid_config_fails_early` at a concrete misconfigured
run. -/
theorem C3_invalid_config_fails_early_witness :
    (gemini_battler ⟨"m", 5, [⟨"a.json", true⟩], Except.ok (some "t")⟩ ⟨[], [], 7⟩
      ⟨"p", "i", true, none, true⟩ "c" "q").calls =
      [RemoteCall.getModel "models/gemini-2.5-flash"] :=
  (C3_invalid_config_fails_early ⟨"m", 5, [⟨"a.json", true⟩], Except.ok (some "t")⟩
    ⟨[], [], 7⟩ ⟨"p", "i", true, none, true⟩ "c" "q" rfl (Or.inr rfl)).2.2

/-- Claim C9 is false as stated: for a well-configured run whose generation
response carries no text, `gemini_battler` returns *normally* with the absent
text — the code never checks `response.text` (main.py line 211 returns it
directly), so no `GenerationFailed` error is raised for empty output. -/
theorem C9_counterexample :
    (gemini_battler ⟨"m", 5, [], Except.ok none⟩ ⟨[], [], 0⟩
      ⟨"p1", "i", false, none, false⟩ "ctx" "prompt").result = Except.ok none :=
  rfl

/-- Claim C9, amended: for every well-configured run, exactly one generation
call is issued; if the remote call errors, the exception propagates and
aborts the run (mapped to the spec's `GenerationFailed` kind), and if the
call returns, `gemini_battler` returns its `.text` unchanged — including an
absent/empty text, for which it returns normally rather than failing. -/
theorem C9_generate_outcome (env : RemoteEnv) (st : ClientState) (options : Options)
    (context prompt : String)
    (hvalid : options.use_data_files = false ∨
      (options.use_cache = true ∧ options.data.isSome = true)) :
    generateCount (gemini_battler env st options context prompt).calls = 1 ∧
    (∀ msg, env.generateResult = Except.error msg →
      (gemini_battler env st options context prompt).result =
        Except.error (PyExc.remoteError msg) ∧
      errKind (PyExc.remoteError msg) = ErrKind.GenerationFailed) ∧
    (∀ t, env.generateResult = Except.ok t →
      (gemini_battler env st options context prompt).result = Except.ok t) := by
  have hcount : ∀ (pre : List RemoteCall) (m c : String) (cfg : GenerateContentConfig),
      (∀ x ∈ pre, isGenCall x = false) →
      generateCount (pre ++ [RemoteCall.generateContent m c cfg]) = 1 := by
    intro pre m c cfg hpre
    unfold generateCount
    rw [List.countP_append]
    have h0 : pre.countP isGenCall = 0 := by
      rw [List.countP_eq_zero]
      intro a ha
      simp [hpre a ha]
    rw [h0]
    rfl
  have hres : ∀ (r : RunResult), r.result = mapGen env.generateResult →
      (∀ msg, env.generateResult = Except.error msg →
        r.result = Except.error (PyExc.remoteError msg) ∧
        errKind (PyExc.remoteError msg) = ErrKind.GenerationFailed) ∧
      (∀ t, env.generateResult = Except.ok t → r.result = Except.ok t) := by
    intro r hr
    constructor
    · intro msg hmsg
      rw [hr, hmsg]
      exact ⟨rfl, rfl⟩
    · intro t ht
      rw [hr, ht]
      rfl
  rcases hvalid with hudf | ⟨huc, hdata⟩
  · rcases huc : options.use_cache
    · rw [gb_eq_plain env st options context prompt hudf huc]
      refine ⟨?_, hres _ rfl⟩
      exact hcount [.getModel "models/gemini-2.5-flash"] _ _ _ (by
        intro x hx
        simp only [List.mem_singleton] at hx
        subst hx
        rfl)
    · rw [gb_eq_cache_nodata env st options context prompt hudf huc]
      refine ⟨?_, hres _ rfl⟩
      rw [show RemoteCall.getModel "models/gemini-2.5-flash" ::
        (ensure_cache st env.modelName "battler" context none).calls ++
        [RemoteCall.generateContent env.modelName prompt
          ⟨none, some (ensure_cache st env.modelName "battler" context none).cache.name⟩] =
        (RemoteCall.getModel "models/gemini-2.5-flash" ::
          (ensure_cache st env.modelName "battler" context none).calls) ++
        [RemoteCall.generateContent env.modelName prompt
          ⟨none, some (ensure_cache st env.modelName "battler" context none).cache.name⟩]
        from rfl]
      refine hcount _ _ _ _ ?_
      intro x hx
      rcases List.mem_cons.mp hx with rfl | hx2
      · rfl
      · exact ensure_cache_calls_no_gen st env.modelName "battler" context none x hx2
  · rcases hdataeq : options.data with _ | d
    · rw [hdataeq] at hdata
      cases hdata
    · rcases hudf : options.use_data_files
      · rw [gb_eq_cache_nodata env st options context prompt hudf huc]
        refine ⟨?_, hres _ rfl⟩
        refine hcount (RemoteCall.getModel "models/gemini-2.5-flash" ::
          (ensure_cache st env.modelName "battler" context none).calls) _ _ _ ?_
        intro x hx
        rcases List.mem_cons.mp hx with rfl | hx2
        · rfl
        · exact ensure_cache_calls_no_gen st env.modelName "battler" context none x hx2
      · rw [gb_eq_cache_data env st options context prompt d hudf huc hdataeq]
        refine ⟨?_, hres _ rfl⟩
        refine hcount (RemoteCall.getModel "models/gemini-2.5-flash" ::
          (ensure_all_files_in_directory st "data" d env.dataEntries).2.2 ++
          (ensure_cache (ensure_all_files_in_directory st "data" d env.dataEntries).2.1
            env.modelName "battler" context
            (some (ensure_all_files_in_directory st "data" d env.dataEntries).1)).calls) _ _ _ ?_
        intro x hx
        rcases List.mem_cons.mp hx with rfl | hx2
        · rfl
        · rcases List.mem_append.mp hx2 with hx3 | hx4
          · exact ensureAllAux_calls_no_gen "data" d env.dataEntries st x hx3
          · exact ensure_cache_calls_no_gen _ env.modelName "battler" context _ x hx4

/-- Witness for `C9_generate_outcome`: a concrete well-configured run whose
response text is present. -/
theorem C9_generate_outcome_witness :
    generateCount (gemini_battler ⟨"m", 5, [], Except.ok (some "move 1")⟩ ⟨[], [], 0⟩
      ⟨"p1", "i", false, none, false⟩ "ctx" "prompt").calls = 1 ∧
    (gemini_battler ⟨"m", 5, [], Except.ok (some "move 1")⟩ ⟨[], [], 0⟩
      ⟨"p1", "i", false, none, false⟩ "ctx" "prompt").result = Except.ok (some "move 1") := by
  have h := C9_generate_outcome ⟨"m", 5, [], Except.ok (some "move 1")⟩ ⟨[], [], 0⟩
    ⟨"p1", "i", false, none, false⟩ "ctx" "prompt" (Or.inl rfl)
  exact ⟨h.1, h.2.2 (some "move 1") rfl⟩

/-! ## Claim C8 -/

theorem dropLit_length : ∀ (k cs t : List Char), dropLit k cs = some t →
    t.length + k.length = cs.length
  | [], cs, t => by
    intro h
    injection h with h'
    subst h'
    simp
  | _ :: _, [], t => by
    intro h
    cases h
  | k :: ks, c :: cs, t => by
    intro h
    simp only [dropLit] at h
    by_cases hc : c = k
    · rw [if_pos hc] at h
      have := dropLit_length ks cs t h
      simp only [List.length_cons]
      omega
    · rw [if_neg hc] at h
      cases h

theorem dropLit_self : ∀ (k rest : List Char), dropLit k (k ++ rest) = some rest
  | [], rest => rfl
  | k :: ks, rest => by
    rw [List.cons_append]
    simp only [dropLit, if_pos rfl]
    exact dropLit_self ks rest

theorem matchCloseTail_length : ∀ (cs t : List Char), matchCloseTail cs = some t →
    t.length + 2 ≤ cs.length
  | [], t => by intro h; cases h
  | [c], t => by
    intro h
    simp only [matchCloseTail] at h
    by_cases hc : c = '\x7d'
    · rw [if_pos hc] at h
      cases h
    · rw [if_neg hc] at h
      by_cases hs : isPySpace c = true
      · rw [if_pos hs] at h
        cases h
      · rw [if_neg hs] at h
        cases h
  | c :: c2 :: rest, t => by
    intro h
    simp only [matchCloseTail] at h
    by_cases hc : c = '\x7d'
    · rw [if_pos hc] at h
      by_cases hc2 : c2 = '\x7d'
      · rw [if_pos hc2] at h
        injection h with h'
        subst h'
        simp
      · rw [if_neg hc2] at h
        cases h
    · rw [if_neg hc] at h
      by_cases hs : isPySpace c = true
      · rw [if_pos hs] at h
        have := matchCloseTail_length (c2 :: rest) t h
        simp only [List.length_cons] at this ⊢
        omega
      · rw [if_neg hs] at h
        cases h

theorem matchClose_length (cs t : List Char) (h : matchClose cs = some t) :
    t.length + 3 ≤ cs.length := by
  rcases cs with _ | ⟨c, cs'⟩
  · cases h
  · simp only [matchClose] at h
    by_cases hs : isPySpace c = true
    · rw [if_pos hs] at h
      have := matchCloseTail_length cs' t h
      simp only [List.length_cons]
      omega
    · rw [if_neg hs] at h
      cases h

theorem matchKeyClose_length (key cs t : List Char) (h : matchKeyClose key cs = some t) :
    t.length + 3 ≤ cs.length := by
  unfold matchKeyClose at h
  rcases hd : dropLit key cs with _ | cs2
  · rw [hd] at h
    cases h
  · rw [hd] at h
    have h1 := dropLit_length key cs cs2 hd
    have h2 := matchClose_length cs2 t h
    omega

theorem matchWs1Tail_length : ∀ (key cs t : List Char), matchWs1Tail key cs = some t →
    t.length + 3 ≤ cs.length
  | key, [], t => by
    intro h
    simp only [matchWs1Tail] at h
    have := matchKeyClose_length key [] t h
    simpa using this
  | key, c :: cs, t => by
    intro h
    simp only [matchWs1Tail] at h
    by_cases hs : isPySpace c = true
    · rw [if_pos hs] at h
      rcases hx : matchWs1Tail key cs with _ | t'
      · rw [hx] at h
        rw [show ((none : Option (List Char)) <|> matchKeyClose key (c :: cs)) =
          matchKeyClose key (c :: cs) from rfl] at h
        exact matchKeyClose_length key (c :: cs) t h
      · rw [hx] at h
        rw [show (some t' <|> matchKeyClose key (c :: cs)) = some t' from rfl] at h
        injection h with h'
        subst h'
        have := matchWs1Tail_length key cs t' hx
        simp only [List.length_cons]
        omega
    · rw [if_neg hs] at h
      exact matchKeyClose_length key (c :: cs) t h

theorem matchWs1_length (key cs t : List Char) (h : matchWs1 key cs = some t) :
    t.length + 4 ≤ cs.length := by
  rcases cs with _ | ⟨c, cs'⟩
  · cases h
  · simp only [matchWs1] at h
    by_cases hs : isPySpace c = true
    · rw [if_pos hs] at h
      have := matchWs1Tail_length key cs' t h
      simp only [List.length_cons]
      omega
    · rw [if_neg hs] at h
      cases h

theorem placeholderAt_length (key cs t : List Char) (h : placeholderAt key cs = some t) :
    t.length + 6 ≤ cs.length := by
  rcases cs with _ | ⟨c1, _ | ⟨c2, cs2⟩⟩
  · cases h
  · cases h
  · simp only [placeholderAt] at h
    by_cases hb : c1 = '\x7b' ∧ c2 = '\x7b'
    · rw [if_pos hb] at h
      have := matchWs1_length key cs2 t h
      simp only [List.length_cons]
      omega
    · rw [if_neg hb] at h
      cases h

theorem subScanF_stable (key value : List Char) : ∀ (f : Nat) (cs : List Char) (g : Nat),
    cs.length < f → cs.length < g →
    subScanF key value f cs = subScanF key value g cs
  | 0, cs, g => by
    intro hf _
    exact absurd hf (by omega)
  | f + 1, cs, g => by
    intro hf hg
    rcases g with _ | g'
    · exact absurd hg (by omega)
    rcases cs with _ | ⟨c, cs'⟩
    · rfl
    simp only [List.length_cons] at hf hg
    by_cases hc : c = '$'
    · subst hc
      rcases hp : placeholderAt key cs' with _ | tail
      · simp only [subScanF, if_pos rfl, hp, if_true, eq_self_iff_true]
        rw [subScanF_stable key value f cs' g' (by omega) (by omega)]
      · have hlen := placeholderAt_length key cs' tail hp
        simp only [subScanF, if_pos rfl, hp, if_true, eq_self_iff_true]
        rw [subScanF_stable key value f tail g' (by omega) (by omega)]
    · simp only [subScanF, if_neg hc]
      rw [subScanF_stable key value f cs' g' (by omega) (by omega)]

theorem subScanF_cons_ne (key value : List Char) (c : Char) (cs : List Char) (f : Nat)
    (hc : c ≠ '$') (hf : (c :: cs).length < f) :
    subScanF key value f (c :: cs) = c :: subScanF key value (cs.length + 1) cs := by
  rcases f with _ | f'
  · exact absurd hf (by omega)
  simp only [List.length_cons] at hf
  simp only [subScanF, if_neg hc]
  rw [subScanF_stable key value f' cs (cs.length + 1) (by omega) (by omega)]

theorem subScanF_dollar_none (key value : List Char) (cs : List Char) (f : Nat)
    (hp : placeholderAt key cs = none) (hf : (('$' : Char) :: cs).length < f) :
    subScanF key value f ('$' :: cs) = '$' :: subScanF key value (cs.length + 1) cs := by
  rcases f with _ | f'
  · exact absurd hf (by omega)
  simp only [List.length_cons] at hf
  simp only [subScanF, if_pos rfl, hp, if_true, eq_self_iff_true]
  rw [subScanF_stable key value f' cs (cs.length + 1) (by omega) (by omega)]

theorem subScanF_dollar_some (key value : List Char) (cs tail : List Char) (f : Nat)
    (hp : placeholderAt key cs = some tail) (hf : (('$' : Char) :: cs).length < f) :
    subScanF key value f ('$' :: cs) = value ++ subScanF key value (tail.length + 1) tail := by
  rcases f with _ | f'
  · exact absurd hf (by omega)
  simp only [List.length_cons] at hf
  have hlen := placeholderAt_length key cs tail hp
  simp only [subScanF, if_pos rfl, hp, if_true, eq_self_iff_true]
  rw [subScanF_stable key value f' tail (tail.length + 1) (by omega) (by omega)]

theorem subScan_no_occ (key value : List Char) : ∀ (cs : List Char) (f : Nat),
    hasOcc key cs = false → cs.length < f → subScanF key value f cs = cs
  | [], f => by
    intro _ hf
    rcases f with _ | f'
    · exact absurd hf (by omega)
    · rfl
  | c :: cs, f => by
    intro hno hf
    unfold hasOcc at hno
    simp only [Bool.or_eq_false_iff, Bool.and_eq_false_iff] at hno
    obtain ⟨hno1, hno2⟩ := hno
    by_cases hc : c = '$'
    · subst hc
      have hps : (placeholderAt key cs).isSome = false := by
        rcases hno1 with h | h
        · simp at h
        · exact h
      rcases hp : placeholderAt key cs with _ | tail
      · rw [subScanF_dollar_none key value cs f hp hf]
        rw [subScan_no_occ key value cs (cs.length + 1) hno2 (by omega)]
      · rw [hp] at hps
        cases hps
    · rw [subScanF_cons_ne key value c cs f hc hf]
      rw [subScan_no_occ key value cs (cs.length + 1) hno2 (by omega)]

theorem subScan_through (key value : List Char) : ∀ (a rest : List Char) (f : Nat),
    (∀ ch ∈ a, ch ≠ '$') → (a ++ rest).length < f →
    subScanF key value f (a ++ rest) = a ++ subScanF key value (rest.length + 1) rest
  | [], rest, f => by
    intro _ hf
    simp only [List.nil_append] at hf ⊢
    exact subScanF_stable key value f rest (rest.length + 1) hf (by omega)
  | c :: a', rest, f => by
    intro ha hf
    rw [List.cons_append]
    rw [subScanF_cons_ne key value c (a' ++ rest) f (ha c (by simp)) (by simpa using hf)]
    rw [subScan_through key value a' rest ((a' ++ rest).length + 1) (fun ch hch => ha ch (by simp [hch])) (by omega)]
    rfl

theorem placeholder_match (key : List Char) (b : List Char) (kc : Char) (ks : List Char)
    (hk : key = kc :: ks) (hkc : isPySpace kc = false) :
    placeholderAt key ('\x7b' :: '\x7b' :: ' ' :: (key ++ ' ' :: '\x7d' :: '\x7d' :: b)) =
      some b := by
  have hstep1 : placeholderAt key ('\x7b' :: '\x7b' :: ' ' ::
      (key ++ ' ' :: '\x7d' :: '\x7d' :: b)) =
      matchWs1 key (' ' :: (key ++ ' ' :: '\x7d' :: '\x7d' :: b)) := by
    simp [placeholderAt]
  have hstep2 : matchWs1 key (' ' :: (key ++ ' ' :: '\x7d' :: '\x7d' :: b)) =
      matchWs1Tail key (key ++ ' ' :: '\x7d' :: '\x7d' :: b) := by
    simp [matchWs1, isPySpace]
  have hstep3 : matchWs1Tail key (key ++ ' ' :: '\x7d' :: '\x7d' :: b) =
      matchKeyClose key (key ++ ' ' :: '\x7d' :: '\x7d' :: b) := by
    rw [hk, List.cons_append]
    simp only [matchWs1Tail]
    rw [if_neg (by rw [hkc]; exact Bool.false_ne_true)]
  have hstep4 : matchKeyClose key (key ++ ' ' :: '\x7d' :: '\x7d' :: b) = some b := by
    unfold matchKeyClose
    rw [dropLit_self key (' ' :: '\x7d' :: '\x7d' :: b)]
    simp [matchClose, matchCloseTail, isPySpace]
  rw [hstep1, hstep2, hstep3, hstep4]

/-- Claim C8: `render` substitutes literally and globally.  The general
conjunct shows compositional global replacement: for a key that is non-empty
and whitespace-free (but may contain regex metacharacters — it is matched
literally), a template consisting of a `$`-free prefix, a placeholder, and an
arbitrary continuation renders to the prefix, the value verbatim, and the
rendered continuation; a template with no occurrence of the placeholder is
returned unchanged.  The concrete conjuncts exhibit: the key `"A.B"` does not
match `"AxB"` (no regex-metacharacter interpretation); a value containing the
group reference `\1` is inserted character-for-character (no replacement
escape processing); and a substituted value that itself looks like a
placeholder is not re-scanned. -/
theorem C8_render_literal_global (key v a b t : String)
    (hk1 : key.data ≠ []) (hk2 : ∀ ch ∈ key.data, isPySpace ch = false)
    (ha : ∀ ch ∈ a.data, ch ≠ '$')
    (ht : hasOcc key.data t.data = false) :
    prompt_input (a ++ "$\x7b\x7b " ++ key ++ " \x7d\x7d" ++ b) key v =
      a ++ v ++ prompt_input b key v ∧
    prompt_input t key v = t ∧
    prompt_input "$\x7b\x7b AxB \x7d\x7d" "A.B" "w" = "$\x7b\x7b AxB \x7d\x7d" ∧
    prompt_input "a $\x7b\x7b X \x7d\x7d b" "X" "\\1" = "a \\1 b" ∧
    prompt_input "a$\x7b\x7b X \x7d\x7db" "X" "$\x7b\x7b X \x7d\x7d z" =
      "a$\x7b\x7b X \x7d\x7d zb" := by
  rcases hkey : key.data with _ | ⟨kc, ks⟩
  · exact absurd hkey hk1
  have hkc : isPySpace kc = false := hk2 kc (by rw [hkey]; simp)
  refine ⟨?_, ?_, rfl, rfl, rfl⟩
  · apply String.ext
    show subScanF key.data v.data _ (a ++ "$\x7b\x7b " ++ key ++ " \x7d\x7d" ++ b).data =
      (a ++ v ++ prompt_input b key v).data
    have hdata : (a ++ "$\x7b\x7b " ++ key ++ " \x7d\x7d" ++ b).data =
        a.data ++ ('$' :: '\x7b' :: '\x7b' :: ' ' ::
          (key.data ++ ' ' :: '\x7d' :: '\x7d' :: b.data)) := by
      simp only [String.data_append]
      simp [List.append_assoc]
    rw [hdata]
    rw [subScan_through key.data v.data a.data _ _ ha (by omega)]
    rw [subScanF_dollar_some key.data v.data _ b.data _
      (placeholder_match key.data b.data kc ks hkey hkc) (by simp)]
    show a.data ++ (v.data ++ subScanF key.data v.data (b.data.length + 1) b.data) =
      (a ++ v ++ prompt_input b key v).data
    simp only [String.data_append, prompt_input, List.append_assoc]
  · apply String.ext
    show subScanF key.data v.data (t.data.length + 1) t.data = t.data
    exact subScan_no_occ key.data v.data t.data (t.data.length + 1) ht (by omega)

/-- Witness for `C8_render_literal_global` at concrete strings, applying the
compositional conjunct with key `"A.B"` (a key containing a regex
metacharacter, matched literally) and the unchanged-template conjunct. -/
theorem C8_render_literal_global_witness :
    prompt_input ("q7" ++ "$\x7b\x7b " ++ "A.B" ++ " \x7d\x7d" ++ "rest") "A.B" "VAL" =
      "q7" ++ "VAL" ++ prompt_input "rest" "A.B" "VAL" ∧
    prompt_input "zz" "A.B" "VAL" = "zz" := by
  have h := C8_render_literal_global "A.B" "VAL" "q7" "rest" "zz"
    (by decide) (by decide) (by decide) (by decide)
  exact ⟨h.1, h.2.1⟩

/-! ## Claim C7: digit and character lemmas -/

theorem char_toNat_ofNat (n : Nat) (h : n.isValidChar) : (Char.ofNat n).toNat = n := by
  unfold Char.ofNat
  rw [dif_pos h]
  unfold Char.ofNatAux
  simp [Char.toNat, UInt32.toNat]

theorem char_valid_range (c : Char) :
    c.toNat < 0xD800 ∨ (0xDFFF < c.toNat ∧ c.toNat < 0x110000) := by
  rcases c.valid with h | ⟨h1, h2⟩
  · exact Or.inl h
  · exact Or.inr ⟨h1, h2⟩

theorem digitChr_toNat (d : Nat) (hd : d < 10) : (digitChr d).toNat = 48 + d :=
  char_toNat_ofNat (48 + d) (Or.inl (by omega))

theorem isDigit_iff_toNat (c : Char) : c.isDigit = true ↔ 48 ≤ c.toNat ∧ c.toNat ≤ 57 := by
  simp only [Char.isDigit, Bool.and_eq_true, decide_eq_true_eq]
  constructor
  · intro ⟨h1, h2⟩; exact ⟨h1, h2⟩
  · intro ⟨h1, h2⟩; exact ⟨h1, h2⟩

theorem digitChr_isDigit (d : Nat) (hd : d < 10) : (digitChr d).isDigit = true := by
  rw [isDigit_iff_toNat, digitChr_toNat d hd]
  omega

/-- Dispatch facts about a decimal digit character: it is none of the
structural characters the JSON parser tests for before its digit branch. -/
theorem digit_char_facts (c : Char) (hc : c.isDigit = true) :
    c ≠ 'n' ∧ c ≠ 't' ∧ c ≠ 'f' ∧ c ≠ '"' ∧ c ≠ '[' ∧ c ≠ '\x7b' ∧ c ≠ '-' ∧
    c ≠ ']' ∧ c ≠ '\x7d' ∧ c ≠ ',' ∧ c ≠ ':' ∧ isJsonWs c = false := by
  have h := (isDigit_iff_toNat c).mp hc
  have heq := char_eq_iff_toNat
  refine ⟨?_, ?_, ?_, ?_, ?_, ?_, ?_, ?_, ?_, ?_, ?_, ?_⟩
  · intro hx
    rw [heq] at hx
    rw [show ('n' : Char).toNat = 110 from rfl] at hx
    omega
  · intro hx
    rw [heq] at hx
    rw [show ('t' : Char).toNat = 116 from rfl] at hx
    omega
  · intro hx
    rw [heq] at hx
    rw [show ('f' : Char).toNat = 102 from rfl] at hx
    omega
  · intro hx
    rw [heq] at hx
    rw [show ('\"' : Char).toNat = 34 from rfl] at hx
    omega
  · intro hx
    rw [heq] at hx
    rw [show ('[' : Char).toNat = 91 from rfl] at hx
    omega
  · intro hx
    rw [heq] at hx
    rw [show ('\x7b' : Char).toNat = 123 from rfl] at hx
    omega
  · intro hx
    rw [heq] at hx
    rw [show ('-' : Char).toNat = 45 from rfl] at hx
    omega
  · intro hx
    rw [heq] at hx
    rw [show (']' : Char).toNat = 93 from rfl] at hx
    omega
  · intro hx
    rw [heq] at hx
    rw [show ('\x7d' : Char).toNat = 125 from rfl] at hx
    omega
  · intro hx
    rw [heq] at hx
    rw [show (',' : Char).toNat = 44 from rfl] at hx
    omega
  · intro hx
    rw [heq] at hx
    rw [show (':' : Char).toNat = 58 from rfl] at hx
    omega
  · unfold isJsonWs
    have h1 : c ≠ ' ' := by
      intro hx
      rw [heq] at hx
      rw [show (' ' : Char).toNat = 32 from rfl] at hx
      omega
    have h2 : c ≠ '\t' := by
      intro hx
      rw [heq] at hx
      rw [show ('\t' : Char).toNat = 9 from rfl] at hx
      omega
    have h3 : c ≠ '\n' := by
      intro hx
      rw [heq] at hx
      rw [show ('\n' : Char).toNat = 10 from rfl] at hx
      omega
    have h4 : c ≠ '\r' := by
      intro hx
      rw [heq] at hx
      rw [show ('\r' : Char).toNat = 13 from rfl] at hx
      omega
    simp [h1, h2, h3, h4]

theorem natToRevDigits_lt : ∀ (f n : Nat), ∀ d ∈ natToRevDigits f n, d < 10
  | 0, n => by simp [natToRevDigits]
  | f + 1, n => by
    unfold natToRevDigits
    by_cases hn : n = 0
    · simp [hn]
    · rw [if_neg hn]
      intro d hd
      rcases List.mem_cons.mp hd with rfl | hd2
      · omega
      · exact natToRevDigits_lt f (n / 10) d hd2

theorem natToRevDigits_foldl : ∀ (f n acc : Nat), n < f →
    List.foldl (fun a d => a * 10 + d) acc ((natToRevDigits f n).reverse) =
      acc * 10 ^ (natToRevDigits f n).length + n
  | 0, n, acc => by
    intro h
    exact absurd h (by omega)
  | f + 1, n, acc => by
    intro h
    unfold natToRevDigits
    by_cases hn : n = 0
    · simp [hn]
    · rw [if_neg hn]
      simp only [List.reverse_cons, List.foldl_append, List.length_cons]
      have hlt : n / 10 < f := by
        have h1 : n / 10 < n := Nat.div_lt_self (by omega) (by omega)
        omega
      rw [natToRevDigits_foldl f (n / 10) acc hlt]
      simp only [List.foldl_cons, List.foldl_nil]
      rw [Nat.pow_succ]
      have := Nat.div_add_mod n 10
      ring_nf
      omega

theorem natChars_digits (n : Nat) : ∀ c ∈ natChars n, c.isDigit = true := by
  unfold natChars
  by_cases hn : n = 0
  · simp [hn]
  · rw [if_neg hn]
    intro c hc
    rw [List.mem_reverse, List.mem_map] at hc
    obtain ⟨d, hd, rfl⟩ := hc
    exact digitChr_isDigit d (natToRevDigits_lt (n + 1) n d hd)

theorem natChars_ne_nil (n : Nat) : natChars n ≠ [] := by
  unfold natChars
  by_cases hn : n = 0
  · simp [hn]
  · rw [if_neg hn]
    have : natToRevDigits (n + 1) n = n % 10 :: natToRevDigits n (n / 10) := by
      simp only [natToRevDigits]
      rw [if_neg hn]
    simp [this]

theorem takeDigits_spec : ∀ (ds : List Nat) (rest : List Char), (∀ d ∈ ds, d < 10) →
    (∀ c, rest.head? = some c → c.isDigit = false) →
    takeDigits (ds.map digitChr ++ rest) = (ds, rest)
  | [], [] => by
    intro _ _
    rfl
  | [], c :: rest' => by
    intro _ hrest
    have hc := hrest c rfl
    simp only [List.map_nil, List.nil_append]
    unfold takeDigits
    rw [hc]
    rfl
  | d :: ds, rest => by
    intro hds hrest
    simp only [List.map_cons, List.cons_append]
    unfold takeDigits
    rw [digitChr_isDigit d (hds d (by simp))]
    rw [takeDigits_spec ds rest (fun x hx => hds x (by simp [hx])) hrest]
    have : (digitChr d).toNat - 48 = d := by
      rw [digitChr_toNat d (hds d (by simp))]
      omega
    simp [this]

theorem digitsToNat_natDigits (n : Nat) :
    digitsToNat (if n = 0 then [0] else (natToRevDigits (n + 1) n).reverse) = n := by
  by_cases hn : n = 0
  · simp [hn, digitsToNat]
  · rw [if_neg hn]
    unfold digitsToNat
    rw [natToRevDigits_foldl (n + 1) n 0 (by omega)]
    simp

theorem natChars_eq_map (n : Nat) :
    natChars n = (if n = 0 then [0] else (natToRevDigits (n + 1) n).reverse).map digitChr := by
  unfold natChars
  by_cases hn : n = 0
  · simp [hn, digitChr]
  · rw [if_neg hn, if_neg hn]
    rw [List.map_reverse]

theorem parseNat_natChars (n : Nat) (rest : List Char)
    (hrest : ∀ c, rest.head? = some c → c.isDigit = false) :
    parseNat (natChars n ++ rest) = some (n, rest) := by
  rw [natChars_eq_map]
  unfold parseNat
  rw [takeDigits_spec _ rest (by
    by_cases hn : n = 0
    · simp [hn]
    · rw [if_neg hn]
      intro d hd
      rw [List.mem_reverse] at hd
      exact natToRevDigits_lt (n + 1) n d hd) hrest]
  have hne : (if n = 0 then [0] else (natToRevDigits (n + 1) n).reverse) ≠ [] := by
    by_cases hn : n = 0
    · simp [hn]
    · rw [if_neg hn]
      have : natToRevDigits (n + 1) n = n % 10 :: natToRevDigits n (n / 10) := by
        simp only [natToRevDigits]
        rw [if_neg hn]
      simp [this]
  rw [if_neg hne]
  rw [digitsToNat_natDigits]

theorem hexVal_hexDigitChr : ∀ d, d < 16 → hexVal (hexDigitChr d) = some d := by decide

theorem hex4_toHex4 (n : Nat) (h : n < 0x10000) :
    hex4 (hexDigitChr (n / 4096 % 16)) (hexDigitChr (n / 256 % 16))
      (hexDigitChr (n / 16 % 16)) (hexDigitChr (n % 16)) = some n := by
  unfold hex4
  rw [hexVal_hexDigitChr _ (by omega), hexVal_hexDigitChr _ (by omega),
    hexVal_hexDigitChr _ (by omega), hexVal_hexDigitChr _ (by omega)]
  show some (((n / 4096 % 16 * 16 + n / 256 % 16) * 16 + n / 16 % 16) * 16 + n % 16) = some n
  congr 1
  omega

theorem mapCons_some (c : Char) (s rest : List Char) :
    mapCons c (some (s, rest)) = some (c :: s, rest) := rfl

/-- Parsing a printed surrogate-pair escape decodes the astral character. -/
theorem parseStrBody_pair (hi lo : Nat) (hh1 : 0xD800 ≤ hi) (hh2 : hi ≤ 0xDBFF)
    (hl1 : 0xDC00 ≤ lo) (hl2 : lo ≤ 0xDFFF) (tail : List Char) :
    parseStrBody ('\\' :: 'u' :: toHex4 hi ++ '\\' :: 'u' :: toHex4 lo ++ tail) =
      mapCons (Char.ofNat (0x10000 + (hi - 0xD800) * 0x400 + (lo - 0xDC00)))
        (parseStrBody tail) := by
  simp only [toHex4, List.cons_append, List.nil_append, List.append_assoc]
  rw [parseStrBody]
  simp [parseEsc, parseEscU, parseEscPair,
    hex4_toHex4 hi (by omega), hex4_toHex4 lo (by omega),
    hh1, hh2, hl1, hl2]

set_option maxRecDepth 4000 in
theorem parseStrBody_roundtrip (s : List Char) : ∀ rest : List Char,
    parseStrBody (strBodyChars s ++ '"' :: rest) = some (s, rest) := by
  induction s with
  | nil =>
    intro rest
    show parseStrBody ('"' :: rest) = some ([], rest)
    rw [parseStrBody]
    simp
  | cons c s ihs =>
    intro rest
    have ih := ihs rest
    have hb : strBodyChars (c :: s) ++ '"' :: rest =
        escChar c ++ (strBodyChars s ++ '"' :: rest) := by
      show (escChar c ++ strBodyChars s) ++ '"' :: rest = _
      rw [List.append_assoc]
    rw [hb]
    unfold escChar
    by_cases h1 : c = '"'
    · rw [if_pos h1]
      subst h1
      simp only [List.cons_append, List.nil_append]
      rw [parseStrBody]
      simp [parseEsc, ih, mapCons]
    · rw [if_neg h1]
      by_cases h2 : c = '\\'
      · rw [if_pos h2]
        subst h2
        simp only [List.cons_append, List.nil_append]
        rw [parseStrBody]
        simp [parseEsc, ih, mapCons]
      · rw [if_neg h2]
        by_cases h3 : c = '\n'
        · rw [if_pos h3]
          subst h3
          simp only [List.cons_append, List.nil_append]
          rw [parseStrBody]
          simp [parseEsc, ih, mapCons]
        · rw [if_neg h3]
          by_cases h4 : c = '\r'
          · rw [if_pos h4]
            subst h4
            simp only [List.cons_append, List.nil_append]
            rw [parseStrBody]
            simp [parseEsc, ih, mapCons]
          · rw [if_neg h4]
            by_cases h5 : c = '\t'
            · rw [if_pos h5]
              subst h5
              simp only [List.cons_append, List.nil_append]
              rw [parseStrBody]
              simp [parseEsc, ih, mapCons]
            · rw [if_neg h5]
              by_cases h6 : c.toNat = 8
              · rw [if_pos h6]
                have hc : c = '\x08' := by
                  rw [char_eq_iff_toNat, h6]
                  rfl
                subst hc
                simp only [List.cons_append, List.nil_append]
                rw [parseStrBody]
                simp [parseEsc, ih, mapCons]
              · rw [if_neg h6]
                by_cases h7 : c.toNat = 12
                · rw [if_pos h7]
                  have hc : c = '\x0c' := by
                    rw [char_eq_iff_toNat, h7]
                    rfl
                  subst hc
                  simp only [List.cons_append, List.nil_append]
                  rw [parseStrBody]
                  simp [parseEsc, ih, mapCons]
                · rw [if_neg h7]
                  by_cases h8 : 0x20 ≤ c.toNat ∧ c.toNat ≤ 0x7e
                  · rw [if_pos h8]
                    simp only [List.cons_append, List.nil_append]
                    rw [parseStrBody]
                    rw [if_neg h1, if_neg h2, if_neg (by omega : ¬ c.toNat < 32)]
                    rw [ih]
                    rfl
                  · rw [if_neg h8]
                    by_cases h9 : c.toNat < 0x10000
                    · rw [if_pos h9]
                      have hval := char_valid_range c
                      have hns1 : ¬(0xD800 ≤ c.toNat ∧ c.toNat ≤ 0xDBFF) := by omega
                      have hns2 : ¬(0xDC00 ≤ c.toNat ∧ c.toNat ≤ 0xDFFF) := by omega
                      simp only [toHex4, List.cons_append, List.nil_append]
                      rw [parseStrBody]
                      simp [parseEsc, parseEscU, hex4_toHex4 c.toNat h9, hns1, hns2,
                        Char.ofNat_toNat, ih, mapCons]
                    · rw [if_neg h9]
                      have hval := char_valid_range c
                      have hle : c.toNat < 0x110000 := by
                        rcases hval with h | ⟨_, h⟩
                        · omega
                        · exact h
                      rw [parseStrBody_pair (0xD800 + (c.toNat - 0x10000) / 0x400)
                        (0xDC00 + (c.toNat - 0x10000) % 0x400)
                        (by omega) (by omega) (by omega) (by omega)]
                      have harg : 0x10000 +
                          (0xD800 + (c.toNat - 0x10000) / 0x400 - 0xD800) * 0x400 +
                          (0xDC00 + (c.toNat - 0x10000) % 0x400 - 0xDC00) = c.toNat := by
                        omega
                      rw [harg, Char.ofNat_toNat, ih]
                      rfl

/-! ## Claim C7: parser-printer interaction lemmas -/

theorem wVal_pos (j : Json) : 1 ≤ wVal j := by
  cases j <;> simp [wVal] <;> omega

theorem skipWs_cons_not_ws (c : Char) (l : List Char) (h : isJsonWs c = false) :
    skipWs (c :: l) = c :: l := by
  simp [skipWs, h]

theorem skipWs_ws_append : ∀ (sp l : List Char), (∀ c ∈ sp, isJsonWs c = true) →
    skipWs (sp ++ l) = skipWs l
  | [], l, _ => rfl
  | c :: sp, l, h => by
    have hc := h c (List.mem_cons_self c sp)
    rw [List.cons_append]
    rw [skipWs]
    rw [hc]
    simp only [if_true]
    exact skipWs_ws_append sp l (fun x hx => h x (List.mem_cons_of_mem c hx))

theorem natChars_head_digit (n : Nat) : ∃ c cs, natChars n = c :: cs ∧ c.isDigit = true := by
  rcases hn : natChars n with _ | ⟨c, cs⟩
  · exact absurd hn (natChars_ne_nil n)
  · exact ⟨c, cs, rfl, natChars_digits n c (by rw [hn]; exact List.mem_cons_self c cs)⟩

theorem intChars_head (n : Int) :
    ∃ c cs, intChars n = c :: cs ∧ (c.isDigit = true ∨ c = '-') := by
  unfold intChars
  by_cases h : n < 0
  · rw [if_pos h]
    exact ⟨'-', natChars n.natAbs, rfl, Or.inr rfl⟩
  · rw [if_neg h]
    obtain ⟨c, cs, h1, h2⟩ := natChars_head_digit n.natAbs
    exact ⟨c, cs, h1, Or.inl h2⟩

/-- The first printed character of any value: never whitespace and never a
closing bracket, so the parser's leading `skipWs` and close-bracket tests
leave a printed value intact. -/
theorem printVal_head (j : Json) : ∃ c cs, printVal j = c :: cs ∧
    isJsonWs c = false ∧ c ≠ ']' ∧ c ≠ '\x7d' := by
  cases j with
  | null => refine ⟨'n', _, rfl, ?_, ?_, ?_⟩ <;> decide
  | bool b =>
    cases b with
    | true => refine ⟨'t', _, rfl, ?_, ?_, ?_⟩ <;> decide
    | false => refine ⟨'f', _, rfl, ?_, ?_, ?_⟩ <;> decide
  | num n =>
    obtain ⟨c, cs, h1, h2⟩ := intChars_head n
    refine ⟨c, cs, h1, ?_, ?_, ?_⟩
    · rcases h2 with h2 | h2
      · exact (digit_char_facts c h2).2.2.2.2.2.2.2.2.2.2.2
      · subst h2; decide
    · rcases h2 with h2 | h2
      · exact (digit_char_facts c h2).2.2.2.2.2.2.2.1
      · subst h2; decide
    · rcases h2 with h2 | h2
      · exact (digit_char_facts c h2).2.2.2.2.2.2.2.2.1
      · subst h2; decide
  | str s =>
    refine ⟨'"', strBodyChars s.data ++ ['"'], ?_, by decide, by decide, by decide⟩
    show qstringChars s = _
    rw [qstringChars, List.cons_append]
  | arr es =>
    cases es with
    | nil => refine ⟨'[', _, rfl, ?_, ?_, ?_⟩ <;> decide
    | cons x xs => refine ⟨'[', _, rfl, ?_, ?_, ?_⟩ <;> decide
  | obj kvs =>
    cases kvs with
    | nil => refine ⟨'\x7b', _, rfl, ?_, ?_, ?_⟩ <;> decide
    | cons kv kvs =>
      exact ⟨'\x7b', _, by rw [show printVal (.obj (kv :: kvs)) =
        '\x7b' :: (qstringChars kv.1 ++ ':' :: ' ' :: printVal kv.2 ++
          printMembersCont kvs) from by cases kv; rfl], by decide, by decide, by decide⟩

theorem skipWs_printVal (j : Json) (rest : List Char) :
    skipWs (printVal j ++ rest) = printVal j ++ rest := by
  obtain ⟨c, cs, h1, h2, _, _⟩ := printVal_head j
  rw [h1, List.cons_append, skipWs_cons_not_ws c _ h2]

theorem insertKey_not_mem : ∀ (acc : List (String × Json)) (k : String) (v : Json),
    hasKeyB acc k = false → insertKey acc k v = acc ++ [(k, v)]
  | [], k, v, _ => rfl
  | (k2, v2) :: acc, k, v, h => by
    unfold insertKey
    simp only [hasKeyB, List.any_cons, Bool.or_eq_false_iff] at h
    rw [if_neg (by
      intro hc
      rw [hc] at h
      simp at h)]
    rw [insertKey_not_mem acc k v (by simp only [hasKeyB]; exact h.2)]
    rw [List.cons_append]

theorem keysNodupB_not_before : ∀ (acc : List (String × Json)) (k : String) (v : Json)
    (kvs : List (String × Json)), keysNodupB (acc ++ (k, v) :: kvs) = true →
    hasKeyB acc k = false
  | [], _, _, _, _ => rfl
  | (k2, v2) :: acc, k, v, kvs, h => by
    rw [List.cons_append, keysNodupB, Bool.and_eq_true, List.all_eq_true] at h
    have hk : ¬ (k = k2) := by
      have := h.1 (k, v) (by
        rw [List.mem_append]
        exact Or.inr (List.mem_cons_self _ _))
      simpa using this
    have hrec := keysNodupB_not_before acc k v kvs h.2
    simp only [hasKeyB, List.any_cons, Bool.or_eq_false_iff]
    refine ⟨by simpa using fun hc => hk hc.symm, ?_⟩
    simpa [hasKeyB] using hrec

theorem insertKey_all_ne : ∀ (acc : List (String × Json)) (k : String) (v : Json)
    (k0 : String), acc.all (fun kv => kv.1 ≠ k0) = true → ¬ (k = k0) →
    (insertKey acc k v).all (fun kv => kv.1 ≠ k0) = true
  | [], k, v, k0, _, hk => by
    simp [insertKey, hk]
  | (k2, v2) :: acc, k, v, k0, h, hk => by
    rw [List.all_cons, Bool.and_eq_true] at h
    unfold insertKey
    by_cases h2 : k2 = k
    · rw [if_pos h2]
      rw [List.all_cons, Bool.and_eq_true]
      exact ⟨h.1, h.2⟩
    · rw [if_neg h2]
      rw [List.all_cons, Bool.and_eq_true]
      exact ⟨h.1, insertKey_all_ne acc k v k0 h.2 hk⟩

theorem keysNodupB_insertKey : ∀ (acc : List (String × Json)) (k : String) (v : Json),
    keysNodupB acc = true → keysNodupB (insertKey acc k v) = true
  | [], k, v, _ => by
    show keysNodupB [(k, v)] = true
    rw [keysNodupB]
    simp [keysNodupB]
  | (k2, v2) :: acc, k, v, h => by
    rw [keysNodupB, Bool.and_eq_true] at h
    unfold insertKey
    by_cases h2 : k2 = k
    · rw [if_pos h2]
      rw [keysNodupB, Bool.and_eq_true]
      exact ⟨h.1, h.2⟩
    · rw [if_neg h2]
      rw [keysNodupB, Bool.and_eq_true]
      refine ⟨insertKey_all_ne acc k v k2 h.1 (fun hc => h2 hc.symm), ?_⟩
      exact keysNodupB_insertKey acc k v h.2

theorem wfMems_insertKey : ∀ (acc : List (String × Json)) (k : String) (v : Json),
    wfMems acc = true → wfVal v = true → wfMems (insertKey acc k v) = true
  | [], k, v, _, hv => by
    simp [insertKey, wfMems, hv]
  | (k2, v2) :: acc, k, v, h, hv => by
    rw [wfMems, Bool.and_eq_true] at h
    unfold insertKey
    by_cases h2 : k2 = k
    · rw [if_pos h2]
      rw [wfMems, Bool.and_eq_true]
      exact ⟨hv, h.2⟩
    · rw [if_neg h2]
      rw [wfMems, Bool.and_eq_true]
      exact ⟨h.1, wfMems_insertKey acc k v h.2 hv⟩

theorem wfElems_eq_all : ∀ es : List Json, wfElems es = es.all wfVal
  | [] => rfl
  | x :: xs => by
    rw [wfElems, List.all_cons, wfElems_eq_all xs]

theorem wfElems_reverse (es : List Json) (h : wfElems es = true) :
    wfElems es.reverse = true := by
  rw [wfElems_eq_all] at h ⊢
  rw [List.all_eq_true] at h ⊢
  intro x hx
  exact h x (List.mem_reverse.mp hx)

theorem wfMems_append : ∀ (a b : List (String × Json)),
    wfMems (a ++ b) = (wfMems a && wfMems b)
  | [], b => by simp [wfMems]
  | kv :: a, b => by
    rw [List.cons_append, wfMems, wfMems, wfMems_append a b, Bool.and_assoc]

/-- Fuel-weight accounting: the parser budget a value demands is bounded by
the length of its printed form. -/
theorem weight_le : ∀ n : Nat,
    (∀ j : Json, sizeOf j ≤ n → wVal j ≤ (printVal j).length) ∧
    (∀ es : List Json, sizeOf es ≤ n → wTail es + 1 ≤ (printElemsCont es).length) ∧
    (∀ kvs : List (String × Json), sizeOf kvs ≤ n →
      wMems kvs + 1 ≤ (printMembersCont kvs).length) := by
  intro n
  induction n with
  | zero =>
    refine ⟨fun j hj => absurd hj ?_, fun es hes => absurd hes ?_,
      fun kvs hkvs => absurd hkvs ?_⟩
    · cases j <;> simp
    · cases es <;> simp
    · cases kvs <;> simp
  | succ n ih =>
    refine ⟨fun j hj => ?_, fun es hes => ?_, fun kvs hkvs => ?_⟩
    · cases j with
      | null => simp [wVal, printVal]
      | bool b => cases b <;> simp [wVal, printVal]
      | num m =>
        obtain ⟨c, cs, h1, _⟩ := intChars_head m
        simp only [wVal, printVal, h1, List.length_cons]
        omega
      | str s =>
        simp only [wVal, printVal, qstringChars, List.cons_append, List.length_cons]
        omega
      | arr es =>
        cases es with
        | nil => simp [wVal, wTail, printVal]
        | cons x xs =>
          simp at hj
          have hx : sizeOf x ≤ n := by omega
          have hxs : sizeOf xs ≤ n := by omega
          have i1 := ih.1 x hx
          have i2 := ih.2.1 xs hxs
          simp only [wVal, wTail, printVal, List.length_cons, List.length_append]
          omega
      | obj kvs =>
        cases kvs with
        | nil => simp [wVal, wMems, printVal]
        | cons kv kvs =>
          obtain ⟨k, v⟩ := kv
          simp at hj
          have hv : sizeOf v ≤ n := by omega
          have hkvs2 : sizeOf kvs ≤ n := by omega
          have i1 := ih.1 v hv
          have i2 := ih.2.2 kvs hkvs2
          simp only [wVal, wMems, printVal, List.length_cons, List.length_append]
          omega
    · cases es with
      | nil => simp [wTail, printElemsCont]
      | cons y ys =>
        simp at hes
        have hy : sizeOf y ≤ n := by omega
        have hys : sizeOf ys ≤ n := by omega
        have i1 := ih.1 y hy
        have i2 := ih.2.1 ys hys
        simp only [wTail, printElemsCont, List.length_cons, List.length_append]
        omega
    · cases kvs with
      | nil => simp [wMems, printMembersCont]
      | cons kv kvs =>
        obtain ⟨k, v⟩ := kv
        simp at hkvs
        have hv : sizeOf v ≤ n := by omega
        have hkvs2 : sizeOf kvs ≤ n := by omega
        have i1 := ih.1 v hv
        have i2 := ih.2.2 kvs hkvs2
        simp only [wMems, printMembersCont, List.length_cons, List.length_append]
        omega

/-- The fuel `json_loads` grants suffices for any printed value. -/
theorem wVal_le_fuel (j : Json) : wVal j ≤ 2 * (printVal j).length + 2 := by
  have h := (weight_le (sizeOf j)).1 j (le_refl _)
  omega

theorem stringMk_data (s : String) : String.mk s.data = s := rfl

theorem printElemsCont_head_not_digit (xs : List Json) (rest : List Char) :
    ∀ c, (printElemsCont xs ++ rest).head? = some c → c.isDigit = false := by
  cases xs with
  | nil =>
    intro c hc
    simp only [printElemsCont, List.cons_append, List.head?_cons, Option.some.injEq] at hc
    rw [← hc]
    decide
  | cons y ys =>
    intro c hc
    simp only [printElemsCont, List.cons_append, List.head?_cons, Option.some.injEq] at hc
    rw [← hc]
    decide

theorem printMembersCont_head_not_digit (kvs : List (String × Json)) (rest : List Char) :
    ∀ c, (printMembersCont kvs ++ rest).head? = some c → c.isDigit = false := by
  cases kvs with
  | nil =>
    intro c hc
    simp only [printMembersCont, List.cons_append, List.head?_cons, Option.some.injEq] at hc
    rw [← hc]
    decide
  | cons kv kvs =>
    obtain ⟨k2, v2⟩ := kv
    intro c hc
    simp only [printMembersCont, List.cons_append, List.head?_cons, Option.some.injEq] at hc
    rw [← hc]
    decide

/-- Parsing a printed value: `parseStep` in each mode consumes the exact text
`json.dumps` produces (with optional leading whitespace) and reconstructs the
value, provided the budget covers the value's weight, the following text does
not start with a digit, and printed objects have distinct keys. -/
theorem parse_print : ∀ f : Nat,
    (∀ (sp : List Char) (j : Json) (rest : List Char),
      (∀ c ∈ sp, isJsonWs c = true) → wfVal j = true → wVal j ≤ f →
      (∀ c, rest.head? = some c → c.isDigit = false) →
      parseStep f .val (sp ++ (printVal j ++ rest)) = some (j, rest)) ∧
    (∀ (sp : List Char) (x : Json) (xs : List Json) (acc : List Json) (rest : List Char),
      (∀ c ∈ sp, isJsonWs c = true) → wfVal x = true → wfElems xs = true →
      1 + wVal x + wTail xs ≤ f →
      (∀ c, rest.head? = some c → c.isDigit = false) →
      parseStep f (.arrTail acc) (sp ++ (printVal x ++ (printElemsCont xs ++ rest))) =
        some (.arr (acc.reverse ++ x :: xs), rest)) ∧
    (∀ (sp : List Char) (k : String) (v : Json) (kvs : List (String × Json))
      (acc : List (String × Json)) (rest : List Char),
      (∀ c ∈ sp, isJsonWs c = true) → wfVal v = true → wfMems kvs = true →
      1 + wVal v + wMems kvs ≤ f →
      (∀ c, rest.head? = some c → c.isDigit = false) →
      keysNodupB (acc ++ (k, v) :: kvs) = true →
      parseStep f (.objTail acc)
        (sp ++ (qstringChars k ++
          (':' :: ' ' :: (printVal v ++ (printMembersCont kvs ++ rest))))) =
        some (.obj (acc ++ (k, v) :: kvs), rest)) := by
  intro f
  induction f with
  | zero =>
    refine ⟨fun sp j rest _ _ hfuel _ => ?_, fun sp x xs acc rest _ _ _ hfuel _ => ?_,
      fun sp k v kvs acc rest _ _ _ hfuel _ _ => ?_⟩
    · exact absurd hfuel (by have := wVal_pos j; omega)
    · exact absurd hfuel (by omega)
    · exact absurd hfuel (by omega)
  | succ f ih =>
    refine ⟨fun sp j rest hsp hwf hfuel hrest => ?_,
      fun sp x xs acc rest hsp hwx hwxs hfuel hrest => ?_,
      fun sp k v kvs acc rest hsp hwv hwkvs hfuel hrest hnodup => ?_⟩
    · -- value mode
      rw [parseStep]
      rw [skipWs_ws_append sp _ hsp, skipWs_printVal]
      cases j with
      | null => simp [printVal]
      | bool b => cases b <;> simp [printVal]
      | str s =>
        simp only [printVal, qstringChars, List.cons_append, List.append_assoc,
          List.singleton_append, List.nil_append]
        rw [if_neg (by decide : ¬ ('"' : Char) = 'n'),
          if_neg (by decide : ¬ ('"' : Char) = 't'),
          if_neg (by decide : ¬ ('"' : Char) = 'f')]
        simp only [eq_self_iff_true, if_true]
        simp only [parseStrBody_roundtrip s.data rest]
      | num m =>
        by_cases hm : m < 0
        · simp only [printVal, intChars, if_pos hm, List.cons_append]
          rw [if_neg (by decide : ¬ ('-' : Char) = 'n'),
            if_neg (by decide : ¬ ('-' : Char) = 't'),
            if_neg (by decide : ¬ ('-' : Char) = 'f'),
            if_neg (by decide : ¬ ('-' : Char) = '"'),
            if_neg (by decide : ¬ ('-' : Char) = '['),
            if_neg (by decide : ¬ ('-' : Char) = '\x7b')]
          simp only [eq_self_iff_true, if_true]
          simp only [parseNat_natChars m.natAbs rest hrest]
          have hfin : -((m.natAbs : Int)) = m := by omega
          rw [hfin]
        · simp only [printVal, intChars, if_neg hm]
          obtain ⟨c, cs, h1, h2⟩ := natChars_head_digit m.natAbs
          simp only [h1, List.cons_append]
          have hf := digit_char_facts c h2
          rw [if_neg hf.1, if_neg hf.2.1, if_neg hf.2.2.1, if_neg hf.2.2.2.1,
            if_neg hf.2.2.2.2.1, if_neg hf.2.2.2.2.2.1, if_neg hf.2.2.2.2.2.2.1,
            if_pos h2]
          rw [← List.cons_append, ← h1]
          simp only [parseNat_natChars m.natAbs rest hrest]
          have hfin : ((m.natAbs : Int)) = m := by omega
          rw [hfin]
      | arr es =>
        cases es with
        | nil => simp [printVal, skipWs, isJsonWs]
        | cons x xs =>
          simp only [wfVal, wfElems, Bool.and_eq_true] at hwf
          simp only [wVal, wTail] at hfuel
          simp only [printVal, List.cons_append, List.append_assoc]
          rw [if_neg (by decide : ¬ ('[' : Char) = 'n'),
            if_neg (by decide : ¬ ('[' : Char) = 't'),
            if_neg (by decide : ¬ ('[' : Char) = 'f'),
            if_neg (by decide : ¬ ('[' : Char) = '"')]
          simp only [eq_self_iff_true, if_true]
          obtain ⟨c2, cs2, hpv, hws2, hne2, _⟩ := printVal_head x
          have hT : skipWs (printVal x ++ (printElemsCont xs ++ rest)) =
              c2 :: (cs2 ++ (printElemsCont xs ++ rest)) := by
            rw [hpv, List.cons_append]
            exact skipWs_cons_not_ws c2 _ hws2
          simp only [hT]
          rw [if_neg hne2]
          have hB := ih.2.1 [] x xs [] rest (by simp) hwf.1 hwf.2 (by omega) hrest
          simpa using hB
      | obj kvs =>
        cases kvs with
        | nil => simp [printVal, skipWs, isJsonWs]
        | cons kv kvs =>
          obtain ⟨k, v⟩ := kv
          simp only [wfVal, Bool.and_eq_true] at hwf
          have hwm : wfVal v = true ∧ wfMems kvs = true := by
            have h2 := hwf.2
            simp only [wfMems, Bool.and_eq_true] at h2
            exact h2
          simp only [wVal, wMems] at hfuel
          simp only [printVal, qstringChars, List.cons_append, List.append_assoc,
            List.singleton_append, List.nil_append]
          rw [if_neg (by decide : ¬ ('\x7b' : Char) = 'n'),
            if_neg (by decide : ¬ ('\x7b' : Char) = 't'),
            if_neg (by decide : ¬ ('\x7b' : Char) = 'f'),
            if_neg (by decide : ¬ ('\x7b' : Char) = '"'),
            if_neg (by decide : ¬ ('\x7b' : Char) = '[')]
          simp only [eq_self_iff_true, if_true]
          have hT : skipWs ('"' :: (strBodyChars k.data ++ ('"' :: (':' :: ' ' ::
              (printVal v ++ (printMembersCont kvs ++ rest)))))) =
              '"' :: (strBodyChars k.data ++ ('"' :: (':' :: ' ' ::
              (printVal v ++ (printMembersCont kvs ++ rest))))) :=
            skipWs_cons_not_ws '"' _ (by decide)
          simp only [hT]
          rw [if_neg (by decide : ¬ ('"' : Char) = '\x7d')]
          have hC := ih.2.2 [] k v kvs [] rest (by simp) hwm.1 hwm.2
            (by omega) hrest (by simpa using hwf.1)
          simpa [qstringChars] using hC
    · -- array-tail mode
      rw [parseStep]
      have hA := ih.1 sp x (printElemsCont xs ++ rest) hsp hwx
        (by omega) (printElemsCont_head_not_digit xs rest)
      simp only [hA]
      cases xs with
      | nil =>
        simp only [printElemsCont, List.cons_append]
        simp only [skipWs_cons_not_ws ']' _ (by decide)]
        rw [if_neg (by decide : ¬ (']' : Char) = ',')]
        simp only [eq_self_iff_true, if_true]
        simp
      | cons y ys =>
        simp only [wfElems, Bool.and_eq_true] at hwxs
        simp only [wTail] at hfuel
        simp only [printElemsCont, List.cons_append, List.append_assoc]
        simp only [skipWs_cons_not_ws ',' _ (by decide)]
        simp only [eq_self_iff_true, if_true]
        have hB := ih.2.1 [' '] y ys (x :: acc) rest (by decide) hwxs.1 hwxs.2
          (by have := wVal_pos x; omega) hrest
        simpa [List.append_assoc] using hB
    · -- object-tail mode
      rw [parseStep]
      rw [skipWs_ws_append sp _ hsp]
      simp only [qstringChars, List.cons_append, List.append_assoc, List.singleton_append,
        List.nil_append]
      simp only [skipWs_cons_not_ws '"' _ (by decide)]
      simp only [eq_self_iff_true, if_true]
      simp only [parseStrBody_roundtrip k.data]
      simp only [skipWs_cons_not_ws ':' _ (by decide)]
      simp only [eq_self_iff_true, if_true]
      have hA := ih.1 [' '] v (printMembersCont kvs ++ rest) (by decide) hwv
        (by omega) (printMembersCont_head_not_digit kvs rest)
      rw [show (' ' :: (printVal v ++ (printMembersCont kvs ++ rest))) =
        [' '] ++ (printVal v ++ (printMembersCont kvs ++ rest)) from rfl]
      simp only [hA]
      rw [stringMk_data]
      cases kvs with
      | nil =>
        simp only [printMembersCont, List.cons_append]
        simp only [skipWs_cons_not_ws '\x7d' _ (by decide)]
        rw [if_neg (by decide : ¬ ('\x7d' : Char) = ',')]
        simp only [eq_self_iff_true, if_true]
        rw [insertKey_not_mem acc k v (keysNodupB_not_before acc k v [] hnodup)]
        rw [List.nil_append]
      | cons kv kvs =>
        obtain ⟨k2, v2⟩ := kv
        simp only [wfMems, Bool.and_eq_true] at hwkvs
        simp only [wMems] at hfuel
        simp only [printMembersCont, List.cons_append, List.append_assoc]
        simp only [skipWs_cons_not_ws ',' _ (by decide)]
        simp only [eq_self_iff_true, if_true]
        rw [insertKey_not_mem acc k v (keysNodupB_not_before acc k v _ hnodup)]
        rw [List.append_cons acc (k, v) ((k2, v2) :: kvs)] at hnodup
        have hC := ih.2.2 [' '] k2 v2 kvs (acc ++ [(k, v)]) rest (by decide)
          hwkvs.1 hwkvs.2 (by have := wVal_pos v; omega) hrest hnodup
        have hshape : acc ++ [(k, v)] ++ (k2, v2) :: kvs = acc ++ (k, v) :: (k2, v2) :: kvs := by
          rw [← List.append_cons]
        rw [hshape] at hC
        simpa [qstringChars, List.append_assoc] using hC

/-- Every value `parseStep` produces is well-formed: objects are always built
by dict-style insertion, so keys are pairwise distinct at every level. -/
theorem parse_wf : ∀ f : Nat,
    (∀ cs j rest, parseStep f .val cs = some (j, rest) → wfVal j = true) ∧
    (∀ acc cs j rest, wfElems acc = true →
      parseStep f (.arrTail acc) cs = some (j, rest) → wfVal j = true) ∧
    (∀ acc cs j rest, keysNodupB acc = true → wfMems acc = true →
      parseStep f (.objTail acc) cs = some (j, rest) → wfVal j = true) := by
  intro f
  induction f with
  | zero =>
    refine ⟨fun cs j rest h => ?_, fun acc cs j rest _ h => ?_,
      fun acc cs j rest _ _ h => ?_⟩ <;> exact absurd h (by rw [parseStep]; simp)
  | succ f ih =>
    refine ⟨fun cs j rest h => ?_, fun acc cs j rest hacc h => ?_,
      fun acc cs j rest hnd hacc h => ?_⟩
    · rw [parseStep] at h
      rcases hws : skipWs cs with _ | ⟨c, rest2⟩ <;> simp only [hws] at h
      · cases h
      · repeat' split at h
        all_goals try (cases h <;> rfl)
        · exact ih.2.1 [] _ j rest rfl h
        · exact ih.2.2 [] _ j rest rfl rfl h
    · rw [parseStep] at h
      rcases hv : parseStep f .val cs with _ | ⟨⟨j1, rest1⟩⟩ <;> simp only [hv] at h
      · cases h
      · have hw1 := ih.1 cs j1 rest1 hv
        rcases hws : skipWs rest1 with _ | ⟨c, r2⟩ <;> simp only [hws] at h
        · cases h
        · split at h
          · exact ih.2.1 (j1 :: acc) r2 j rest
              (by simp [wfElems, hw1, hacc]) h
          · split at h
            · simp only [Option.some.injEq, Prod.mk.injEq] at h
              obtain ⟨h1, h2⟩ := h
              subst h1
              show wfElems (j1 :: acc).reverse = true
              exact wfElems_reverse _ (by simp [wfElems, hw1, hacc])
            · cases h
    · rw [parseStep] at h
      rcases hws : skipWs cs with _ | ⟨c, rest2⟩ <;> simp only [hws] at h
      · cases h
      · split at h
        · rcases hsb : parseStrBody rest2 with _ | ⟨⟨ks, r1⟩⟩ <;> simp only [hsb] at h
          · cases h
          · rcases hws2 : skipWs r1 with _ | ⟨c2, r2⟩ <;> simp only [hws2] at h
            · cases h
            · split at h
              · rcases hv : parseStep f .val r2 with _ | ⟨⟨v, r3⟩⟩ <;> simp only [hv] at h
                · cases h
                · have hwv := ih.1 r2 v r3 hv
                  rcases hws3 : skipWs r3 with _ | ⟨c3, r4⟩ <;> simp only [hws3] at h
                  · cases h
                  · split at h
                    · exact ih.2.2 (insertKey acc (String.mk ks) v) r4 j rest
                        (keysNodupB_insertKey acc _ v hnd)
                        (wfMems_insertKey acc _ v hacc hwv) h
                    · split at h
                      · simp only [Option.some.injEq, Prod.mk.injEq] at h
                        obtain ⟨h1, h2⟩ := h
                        subst h1
                        show (keysNodupB (insertKey acc (String.mk ks) v) &&
                          wfMems (insertKey acc (String.mk ks) v)) = true
                        rw [keysNodupB_insertKey acc _ v hnd,
                          wfMems_insertKey acc _ v hacc hwv]
                        rfl
                      · cases h
              · cases h
        · cases h

/-- Printing then re-parsing a well-formed value reproduces it exactly. -/
theorem json_loads_dumps (j : Json) (hwf : wfVal j = true) :
    json_loads (json_dumps j) = some j := by
  unfold json_loads json_dumps
  have hdata : (String.mk (printVal j)).data = printVal j := rfl
  rw [hdata]
  have hA := (parse_print (2 * (printVal j).length + 2)).1 [] j [] (by simp) hwf
    (wVal_le_fuel j) (by simp)
  simp only [List.nil_append, List.append_nil] at hA
  rw [hA]
  rfl

/-- Any value `json_loads` returns is well-formed. -/
theorem json_loads_wf (s : String) (j : Json) (h : json_loads s = some j) :
    wfVal j = true := by
  unfold json_loads at h
  rcases hp : parseStep (2 * s.data.length + 2) .val s.data with _ | ⟨⟨j1, rest⟩⟩ <;>
    simp only [hp] at h
  · cases h
  · have hw := (parse_wf (2 * s.data.length + 2)).1 s.data j1 rest hp
    split at h
    · cases h
      exact hw
    · cases h

theorem json_loads_ne_empty (s : String) (j : Json) (h : json_loads s = some j) :
    s ≠ "" := by
  intro he
  subst he
  rw [show json_loads "" = none from rfl] at h
  cases h

/-- C7: `validate_input` on any input that parses as a JSON object with the
four required top-level keys succeeds and returns the re-serialized object,
which parses back to the same object (the same keys with equal values); on an
object missing any one of the four keys it fails with a `ValueError` whose
message the specification classifies as `IncompleteInput`. -/
theorem C7_valid_object_roundtrip (s : String) (kvs : List (String × Json))
    (hparse : json_loads s = some (.obj kvs)) :
    ((hasKeyB kvs "player_data" = true ∧ hasKeyB kvs "battle_state" = true ∧
      hasKeyB kvs "request_data" = true ∧ hasKeyB kvs "failed_actions" = true) →
      validate_input s = .ok (json_dumps (.obj kvs)) ∧
      json_loads (json_dumps (.obj kvs)) = some (.obj kvs)) ∧
    ((¬ (hasKeyB kvs "player_data" = true ∧ hasKeyB kvs "battle_state" = true ∧
      hasKeyB kvs "request_data" = true ∧ hasKeyB kvs "failed_actions" = true)) →
      ∃ m, validate_input s = .error (.valueError m) ∧
        errKind (.valueError m) = .IncompleteInput) := by
  have hne := json_loads_ne_empty s _ hparse
  have hwf := json_loads_wf s _ hparse
  constructor
  · rintro ⟨h1, h2, h3, h4⟩
    constructor
    · unfold validate_input
      rw [if_neg hne]
      simp only [hparse]
      rw [if_neg (not_not_intro h1), if_neg (not_not_intro h2),
        if_neg (not_not_intro h3), if_neg (not_not_intro h4)]
    · exact json_loads_dumps _ hwf
  · intro hmiss
    unfold validate_input
    rw [if_neg hne]
    simp only [hparse]
    by_cases h1 : hasKeyB kvs "player_data" = true
    · rw [if_neg (not_not_intro h1)]
      by_cases h2 : hasKeyB kvs "battle_state" = true
      · rw [if_neg (not_not_intro h2)]
        by_cases h3 : hasKeyB kvs "request_data" = true
        · rw [if_neg (not_not_intro h3)]
          have h4 : ¬ hasKeyB kvs "failed_actions" = true := by tauto
          rw [if_pos h4]
          exact ⟨"Battle input is missing failed actions", rfl, rfl⟩
        · rw [if_pos h3]
          exact ⟨"Battle input is missing request data", rfl, rfl⟩
      · rw [if_pos h2]
        exact ⟨"Battle input is missing battle state", rfl, rfl⟩
    · rw [if_pos h1]
      exact ⟨"Battle input is missing player data", rfl, rfl⟩

theorem C7_valid_object_roundtrip_witness :
    validate_input "\x7b\"player_data\": 0, \"battle_state\": 1, \"request_data\": 2, \"failed_actions\": 3\x7d" =
      .ok (json_dumps (.obj [("player_data", .num 0), ("battle_state", .num 1),
        ("request_data", .num 2), ("failed_actions", .num 3)])) ∧
    json_loads (json_dumps (.obj [("player_data", .num 0), ("battle_state", .num 1),
        ("request_data", .num 2), ("failed_actions", .num 3)])) =
      some (.obj [("player_data", .num 0), ("battle_state", .num 1),
        ("request_data", .num 2), ("failed_actions", .num 3)]) ∧
    (∃ m, validate_input "\x7b\"player_data\": 0\x7d" = .error (.valueError m) ∧
      errKind (.valueError m) = .IncompleteInput) := by
  have h1 := (C7_valid_object_roundtrip
    "\x7b\"player_data\": 0, \"battle_state\": 1, \"request_data\": 2, \"failed_actions\": 3\x7d"
    [("player_data", .num 0), ("battle_state", .num 1), ("request_data", .num 2),
      ("failed_actions", .num 3)] rfl).1 (by decide)
  have h2 := (C7_valid_object_roundtrip "\x7b\"player_data\": 0\x7d"
    [("player_data", .num 0)] rfl).2 (by decide)
  exact ⟨h1.1, h1.2, h2⟩

end Battler
